import Mathlib

/-!
# SSD1306 OLED terminal driver (`ssd1306/oled_small.c`)

A shallow embedding of the text-terminal driver: the three cursor globals
(`line`, `column`, `scroll`) and the sequence of calls made on the two-wire
bus are the state; every C function becomes a state transformer.

Machine integers are natural numbers; a conversion to `uint8_t` is written
`% 256` at the place where the C code converts.
-/

namespace SSD1306

/-! ## Bus transport -/

/-- One call on the two-wire bus transport (`i2c_tx.h`): `I2C_start(addr)`,
`I2C_write(data)` or `I2C_stop()`. -/
inductive I2C where
  | start (addr : Nat)
  | write (data : Nat)
  | stop
deriving DecidableEq

/-- Driver state: the globals `uint8_t line, column, scroll;` together with
the calls made on the bus so far, oldest first. -/
structure OLED where
  line : Nat
  column : Nat
  scroll : Nat
  bus : List I2C
deriving DecidableEq

/-- The state at program start: the three globals are zero-initialised and
nothing has been sent. -/
def OLED_reset : OLED := { line := 0, column := 0, scroll := 0, bus := [] }

def OLED_ADDR : Nat := 0x78
def OLED_CMD_MODE : Nat := 0x00
def OLED_DAT_MODE : Nat := 0x40
def OLED_COLUMN_HIGH : Nat := 0x10
def OLED_PAGE : Nat := 0xB0
def OLED_OFFSET : Nat := 0xD3

/-- Modelled from the spec: `I2C_init()` of the absent `i2c_tx.h` sets the
bus peripheral up and transmits nothing. -/
def I2C_init (s : OLED) : OLED := s

/-- Modelled from the spec: `I2C_start(addr)` of the absent `i2c_tx.h` opens a
transmission to `addr`; the call is recorded. -/
def I2C_start (addr : Nat) (s : OLED) : OLED :=
  { s with bus := s.bus ++ [I2C.start addr] }

/-- Modelled from the spec: `I2C_write(uint8_t data)` of the absent `i2c_tx.h`
sends one byte; the argument is converted to `uint8_t` and recorded. -/
def I2C_write (data : Nat) (s : OLED) : OLED :=
  { s with bus := s.bus ++ [I2C.write (data % 256)] }

/-- Modelled from the spec: `I2C_stop()` of the absent `i2c_tx.h` closes the
transmission; the call is recorded. -/
def I2C_stop (s : OLED) : OLED :=
  { s with bus := s.bus ++ [I2C.stop] }

/-- The C expression `~x` for a `uint8_t` operand, converted back to
`uint8_t`: the 8-bit complement. -/
def compl8 (x : Nat) : Nat := 255 - x % 256

/-- A read `font5x8[row][i]` of the glyph table of the absent `font5x8.h`,
which is taken as the parameter `font5x8`; the element type is `uint8_t`. -/
def font5x8_at (font5x8 : Int → Nat → Nat) (row : Int) (i : Nat) : Nat :=
  font5x8 row i % 256

/-! ## Positioning and clearing -/

/-- `ssd1306_init_sequence[]`. -/
def ssd1306_init_sequence : List Nat :=
  [ 0xAE,
    0xD5, 0xF0,
    0xA8, 0x3F,
    0xD3, 0x00,
    0x40 ||| 0x00,
    0x8D, 0x14,
    0x20, 0x00,
    0xA0 ||| 0x01,
    0xC8,
    0xDA, 0x12,
    0x81, 0x3F,
    0xD9, 0x22,
    0xDB, 0x20,
    0xA4,
    0xA6,
    0x2E,
    0xAF,
    0x22, 0x00, 0x3f,
    0x21, 0x00, 0x7f ]

/-- `void OLED_setline(uint8_t line)`: the parameter shadows the global. -/
def OLED_setline (ln : Nat) (s : OLED) : OLED :=
  let s := I2C_start OLED_ADDR s
  let s := I2C_write OLED_CMD_MODE s
  let s := I2C_write (OLED_PAGE + ln) s
  let s := I2C_write 0x00 s
  let s := I2C_write 0x10 s
  I2C_stop s

/-- A loop `for(i = n; i; i--) I2C_write(p);`. -/
def write_repeat (p : Nat) : Nat → OLED → OLED
  | 0, s => s
  | i + 1, s => write_repeat p i (I2C_write p s)

/-- `void OLED_clearline(uint8_t line)`. -/
def OLED_clearline (ln : Nat) (s : OLED) : OLED :=
  let s := OLED_setline ln s
  let s := I2C_start OLED_ADDR s
  let s := I2C_write OLED_DAT_MODE s
  let s := write_repeat 0x00 128 s
  I2C_stop s

/-- `void OLED_setpos(uint8_t x, uint8_t y)`. -/
def OLED_setpos (x y : Nat) (s : OLED) : OLED :=
  let s := I2C_start OLED_ADDR s
  let s := I2C_write OLED_CMD_MODE s
  let s := I2C_write (OLED_PAGE ||| y) s
  let s := I2C_write (x &&& 0x0F) s
  let s := I2C_write (OLED_COLUMN_HIGH ||| (x >>> 4)) s
  I2C_stop s

/-- `void OLED_clear(void)`. -/
def OLED_clear (s : OLED) : OLED :=
  let s := OLED_setpos 0 0 s
  let s := I2C_start OLED_ADDR s
  let s := I2C_write OLED_DAT_MODE s
  let s := write_repeat 0x00 (128 * 8) s
  I2C_stop s

/-- `void OLED_fill(uint8_t p)`. -/
def OLED_fill (p : Nat) (s : OLED) : OLED :=
  let s := OLED_setpos 0 0 s
  let s := I2C_start OLED_ADDR s
  let s := I2C_write OLED_DAT_MODE s
  let s := write_repeat p (128 * 8) s
  I2C_stop s

/-- `void OLED_scrollDisplay(void)`. -/
def OLED_scrollDisplay (s : OLED) : OLED :=
  let s := OLED_clearline s.scroll s
  let s := { s with scroll := (s.scroll + 1) &&& 0x07 }
  let s := I2C_start OLED_ADDR s
  let s := I2C_write OLED_CMD_MODE s
  let s := I2C_write OLED_OFFSET s
  let s := I2C_write (s.scroll <<< 3) s
  I2C_stop s

/-- The loop `for(i = 0; i < sizeof(seq); i++) I2C_write(seq[i]);`. -/
def write_all : List Nat → OLED → OLED
  | [], s => s
  | b :: bs, s => write_all bs (I2C_write b s)

/-- `void OLED_init(void)`. -/
def OLED_init (s : OLED) : OLED :=
  let s := I2C_init s
  let s := I2C_start OLED_ADDR s
  let s := I2C_write OLED_CMD_MODE s
  let s := write_all ssd1306_init_sequence s
  let s := I2C_stop s
  let s := { s with scroll := 0 }
  let s := OLED_clear s
  OLED_setpos 0 0 s

/-! ## Characters and strings -/

/-- The loop `for(short i = 0; i != 5; i++)` of `OLED_plotChar`, with `n`
iterations left and the counter at `i`. -/
def OLED_plotChar_loop (font5x8 : Int → Nat → Nat) (c : Nat) (inverted : Bool) :
    Nat → Nat → OLED → OLED
  | 0, _, s => s
  | n + 1, i, s =>
    let g := font5x8_at font5x8 ((c : Int) - 32) i
    OLED_plotChar_loop font5x8 c inverted n (i + 1)
      (I2C_write (if inverted then compl8 g else g) s)

/-- `void OLED_plotChar(char c, bool inverted)`. -/
def OLED_plotChar (font5x8 : Int → Nat → Nat) (c : Nat) (inverted : Bool) (s : OLED) : OLED :=
  let s := I2C_start OLED_ADDR s
  let s := I2C_write OLED_DAT_MODE s
  let s := OLED_plotChar_loop font5x8 c inverted 5 0 s
  let s := I2C_write (if inverted then compl8 0x00 else 0x00) s
  I2C_stop s

/-- `void OLED_write(char c, bool inverted)`; 10 is the newline character and
13 the carriage return. -/
def OLED_write (font5x8 : Int → Nat → Nat) (c : Nat) (inverted : Bool) (s : OLED) : OLED :=
  let c := c &&& 0x7F
  if c ≥ 32 then
    OLED_plotChar font5x8 c inverted s
  else if c = 10 then
    let s := { s with column := 0 }
    let s := if s.line ≠ 7 then { s with line := (s.line + 1) % 256 } else s
    OLED_setline ((s.line + s.scroll) &&& 0x07) s
  else if c = 13 then
    let s := { s with column := 0 }
    OLED_setline ((s.line + s.scroll) &&& 0x07) s
  else s

/-- `void OLED_print(char* str)`: the string is the bytes at `str`; the loop
ends at the first zero byte. -/
def OLED_print (font5x8 : Int → Nat → Nat) : List Nat → OLED → OLED
  | [], s => s
  | c :: str, s =>
    if c = 0 then s else OLED_print font5x8 str (OLED_write font5x8 c false s)

/-- `void OLED_printS(char* str, bool inverted)`. -/
def OLED_printS (font5x8 : Int → Nat → Nat) : List Nat → Bool → OLED → OLED
  | [], _, s => s
  | c :: str, inverted, s =>
    if c = 0 then s else OLED_printS font5x8 str inverted (OLED_write font5x8 c inverted s)

/-- `void OLED_println(char* str, bool inverted)`. -/
def OLED_println (font5x8 : Int → Nat → Nat) (str : List Nat) (inverted : Bool) (s : OLED) : OLED :=
  let s := OLED_printS font5x8 str inverted s
  OLED_write font5x8 10 inverted s

/-! ## Numbers

The number printers only call `OLED_write`; they are written over an
arbitrary callee `write`, so that the sequence of calls can be observed by
passing a recorder. The driver's functions are the instances at
`OLED_write font5x8`. -/

/-- `const uint32_t DIVIDER[]`. -/
def DIVIDER : List Nat :=
  [1, 10, 100, 1000, 10000, 100000, 1000000, 10000000, 100000000, 1000000000]

/-- The inner loop `while(value >= divider) { leadflag = 1; digitval++; value -= divider; }`
of `OLED_printD`, run for at most `fuel` iterations; the result is
`(value, digitval, leadflag)`. -/
def OLED_printD_sub (divider : Nat) : Nat → Nat → Nat → Nat → Nat × Nat × Nat
  | 0, value, digitval, leadflag => (value, digitval, leadflag)
  | fuel + 1, value, digitval, leadflag =>
    if value ≥ divider then
      OLED_printD_sub divider fuel (value - divider) ((digitval + 1) % 256) 1
    else (value, digitval, leadflag)

/-- The outer loop `while(digits--)` of `OLED_printD`, entered with the
counter at `digits`; in the body the counter is already decremented. The
inner loop gets `value + 1` iterations of fuel: each iteration lowers
`value` by a divider that is at least 1. -/
def OLED_printD_loop {σ : Type} (write : Nat → Bool → σ → σ) (inverted : Bool) :
    Nat → Nat → Nat → σ → σ
  | 0, _, _, s => s
  | digits + 1, value, leadflag, s =>
    let divider := DIVIDER.getD digits 0
    let r := OLED_printD_sub divider (value + 1) value 0 leadflag
    let value := r.1
    let digitval := r.2.1
    let leadflag := r.2.2
    let leadflag := if digits = 0 then (leadflag + 1) % 256 else leadflag
    let s := if leadflag ≠ 0 then write ((digitval + 48) % 256) inverted s else s
    OLED_printD_loop write inverted digits value leadflag s

/-- `void OLED_printD(uint32_t value, bool inverted)` over the callee `write`. -/
def OLED_printD_on {σ : Type} (write : Nat → Bool → σ → σ) (value : Nat) (inverted : Bool)
    (s : σ) : σ :=
  OLED_printD_loop write inverted 10 value 0 s

/-- `void OLED_printN(uint8_t nibble, bool inverted)` over the callee `write`;
48 is the character 0 and 65 the character A. -/
def OLED_printN_on {σ : Type} (write : Nat → Bool → σ → σ) (nibble : Nat) (inverted : Bool)
    (s : σ) : σ :=
  write ((if nibble ≤ 9 then 48 + nibble else 65 - 10 + nibble) % 256) inverted s

/-- `void OLED_printB(uint8_t value, bool inverted)` over the callee `write`. -/
def OLED_printB_on {σ : Type} (write : Nat → Bool → σ → σ) (value : Nat) (inverted : Bool)
    (s : σ) : σ :=
  let s := OLED_printN_on write (value >>> 4) inverted s
  OLED_printN_on write (value &&& 0x0f) inverted s

/-- `void OLED_printW(uint16_t value, bool inverted)` over the callee `write`;
the arguments of `OLED_printB` are converted to `uint8_t`. -/
def OLED_printW_on {σ : Type} (write : Nat → Bool → σ → σ) (value : Nat) (inverted : Bool)
    (s : σ) : σ :=
  let s := OLED_printB_on write ((value >>> 8) % 256) inverted s
  OLED_printB_on write (value % 256) inverted s

/-- `void OLED_printL(uint32_t value, bool inverted)` over the callee `write`;
the arguments of `OLED_printW` are converted to `uint16_t`. -/
def OLED_printL_on {σ : Type} (write : Nat → Bool → σ → σ) (value : Nat) (inverted : Bool)
    (s : σ) : σ :=
  let s := OLED_printW_on write ((value >>> 16) % 65536) inverted s
  OLED_printW_on write (value % 65536) inverted s

/-- `OLED_printD` of the driver. -/
def OLED_printD (font5x8 : Int → Nat → Nat) (value : Nat) (inverted : Bool) (s : OLED) : OLED :=
  OLED_printD_on (OLED_write font5x8) value inverted s

/-- `OLED_printB` of the driver. -/
def OLED_printB (font5x8 : Int → Nat → Nat) (value : Nat) (inverted : Bool) (s : OLED) : OLED :=
  OLED_printB_on (OLED_write font5x8) value inverted s

/-- `OLED_printW` of the driver. -/
def OLED_printW (font5x8 : Int → Nat → Nat) (value : Nat) (inverted : Bool) (s : OLED) : OLED :=
  OLED_printW_on (OLED_write font5x8) value inverted s

/-- `OLED_printL` of the driver. -/
def OLED_printL (font5x8 : Int → Nat → Nat) (value : Nat) (inverted : Bool) (s : OLED) : OLED :=
  OLED_printL_on (OLED_write font5x8) value inverted s

/-- A callee that records the character it is called with, in place of
`OLED_write`: the state is the list of characters passed so far. -/
def record_write (c : Nat) (_inverted : Bool) (log : List Nat) : List Nat := log ++ [c]

/-- The characters `OLED_printD(value, inverted)` passes to `OLED_write`, in order. -/
def OLED_printD_chars (value : Nat) (inverted : Bool) : List Nat :=
  OLED_printD_on record_write value inverted []

/-- The characters `OLED_printB(value, inverted)` passes to `OLED_write`, in order. -/
def OLED_printB_chars (value : Nat) (inverted : Bool) : List Nat :=
  OLED_printB_on record_write value inverted []

/-- The characters `OLED_printW(value, inverted)` passes to `OLED_write`, in order. -/
def OLED_printW_chars (value : Nat) (inverted : Bool) : List Nat :=
  OLED_printW_on record_write value inverted []

/-- The characters `OLED_printL(value, inverted)` passes to `OLED_write`, in order. -/
def OLED_printL_chars (value : Nat) (inverted : Bool) : List Nat :=
  OLED_printL_on record_write value inverted []

/-! ## Specification vocabulary -/

/-- The `n` decimal digits of `v`, most significant first, zero padded, as
characters (48 is the character 0); meant for `v < 10 ^ n`. -/
def dec_padded : Nat → Nat → List Nat
  | 0, _ => []
  | n + 1, v => (v / 10 ^ n + 48) :: dec_padded n (v % 10 ^ n)

/-- The decimal digits of `v < 10 ^ n` without leading zeros, as characters;
at least one digit when `n` is positive. -/
def dec_canonical : Nat → Nat → List Nat
  | 0, _ => []
  | n + 1, v => if n = 0 ∨ 10 ^ n ≤ v then dec_padded (n + 1) v else dec_canonical n v

/-- Reading a list of digit characters back as a decimal number. -/
def dec_value (cs : List Nat) : Nat := cs.foldl (fun a c => 10 * a + (c - 48)) 0

/-- One complete bus transaction: start to the display's write address, one
control byte, the payload bytes, stop. -/
def transaction (mode : Nat) (payload : List Nat) : List I2C :=
  I2C.start 0x78 :: I2C.write mode :: (payload.map I2C.write ++ [I2C.stop])

/-- The bus trace of one `OLED_scrollDisplay()` entered with `scroll = p`:
the set-line command for page `p`, one data transaction of 128 zero bytes,
and the display-offset command for the next scroll value. -/
def scroll_trace (p : Nat) : List I2C :=
  transaction 0x00 [0xB0 + p, 0x00, 0x10] ++ transaction 0x40 (List.replicate 128 0x00)
    ++ transaction 0x00 [0xD3, 8 * ((p + 1) % 8)]

/-- The state after the start-up `OLED_init()` and three newlines, with an
all-zero glyph table: a state the driver reaches, with `line = 3`. -/
def after_three_newlines : OLED :=
  OLED_write (fun _ _ => 0) 10 false
    (OLED_write (fun _ _ => 0) 10 false
      (OLED_write (fun _ _ => 0) 10 false (OLED_init OLED_reset)))

/-- The uppercase hexadecimal digits, as characters. -/
def hex_digits : List Nat := "0123456789ABCDEF".toList.map Char.toNat

/-- The uppercase hexadecimal digit of a nibble. -/
def hex_char (n : Nat) : Nat := hex_digits.getD n 0

/-- The fixed-width uppercase hexadecimal representation: `width` characters,
most significant nibble first, character `k` being the digit of
`(value >> 4 * (width - 1 - k)) & 0xF`. -/
def hex_fixed (width value : Nat) : List Nat :=
  (List.range width).map (fun k => hex_char ((value >>> (4 * (width - 1 - k))) &&& 0xF))

/-- The cursor part of the driver state: `(line, column, scroll)`. -/
def cursor (s : OLED) : Nat × Nat × Nat := (s.line, s.column, s.scroll)

/-- The calls made on the bus between the states `s` and `t`, where `t` is
reached from `s`. -/
def bus_since (s t : OLED) : List I2C := t.bus.drop s.bus.length

/-- Phase of the display controller's bus interface: no transmission open,
waiting for the control byte, receiving commands, receiving data. -/
inductive Phase where
  | idle
  | control
  | command
  | data
deriving DecidableEq

/-- The display controller as the memory claim takes it: an address pointer
`(page, col)` into a memory of 8 pages of 128 columns, the byte at
`(page, col)` being `mem (page * 128 + col)`. -/
structure Controller where
  phase : Phase
  page : Nat
  col : Nat
  mem : Nat → Nat

/-- One bus call seen by the controller. A start opens a transmission, the
first byte selects command mode (0x00) or data mode (0x40). In command mode
0xB0..0xB7 sets the page, 0x00..0x0F the low and 0x10..0x1F the high nibble
of the column, other bytes leave the pointer alone. In data mode the byte is
stored at the pointer, which then moves one column on, from column 127 to
column 0 of the next page and from the last page to the first, so that 1024
consecutive data bytes written from (0, 0) cover all 8 pages of 128 columns. -/
def ctrl_step (c : Controller) : I2C → Controller
  | I2C.start _ => { c with phase := Phase.control }
  | I2C.stop => { c with phase := Phase.idle }
  | I2C.write b =>
    match c.phase with
    | Phase.idle => c
    | Phase.control => { c with phase := if b = 0x40 then Phase.data else Phase.command }
    | Phase.command =>
      if 0xB0 ≤ b ∧ b ≤ 0xB7 then { c with page := b - 0xB0 }
      else if b ≤ 0x0F then { c with col := c.col / 16 * 16 + b }
      else if 0x10 ≤ b ∧ b ≤ 0x1F then { c with col := ((b - 0x10) * 16 + c.col % 16) % 128 }
      else c
    | Phase.data =>
      { c with
        mem := fun a => if a = c.page * 128 + c.col then b else c.mem a
        col := if c.col + 1 = 128 then 0 else c.col + 1
        page := if c.col + 1 = 128 then (c.page + 1) % 8 else c.page }

/-- The controller after a sequence of bus calls. -/
def ctrl_run (c : Controller) (t : List I2C) : Controller := t.foldl ctrl_step c

/-- Number of argument bytes that follow a controller command opcode, as the
comments of `oled_segment.h` and the lines of `ssd1306_init_sequence` give
them: two for the column and page range commands 0x21 and 0x22, one for
0x20, 0x81, 0x8D, 0xA8, 0xD3, 0xD5, 0xD9, 0xDA and 0xDB, none otherwise. -/
def ssd1306_cmd_args (op : Nat) : Nat :=
  if op = 0x21 ∨ op = 0x22 then 2
  else if op ∈ [0x20, 0x81, 0x8D, 0xA8, 0xD3, 0xD5, 0xD9, 0xDA, 0xDB] then 1
  else 0

/-- The command opcodes of a command payload, in order, with `skip` argument
bytes still to pass over. -/
def ssd1306_opcodes : Nat → List Nat → List Nat
  | _, [] => []
  | 0, op :: rest => op :: ssd1306_opcodes (ssd1306_cmd_args op) rest
  | skip + 1, _ :: rest => ssd1306_opcodes skip rest

/-- The order of the initialisation commands as the specification lists them:
multiplex ratio, clock divider, display offset, start line, charge pump,
addressing mode, segment remap, scan direction, COM pin configuration,
contrast, pre-charge, VCOMH level, normal display, deactivate scroll,
display on. -/
def listed_init_order : List Nat :=
  [0xA8, 0xD5, 0xD3, 0x40, 0x8D, 0x20, 0xA1, 0xC8, 0xDA, 0x81, 0xD9, 0xDB, 0xA6, 0x2E, 0xAF]

/-- The same commands in the order of `ssd1306_init_sequence`: the clock
divider comes before the multiplex ratio. -/
def sent_init_order : List Nat :=
  [0xD5, 0xA8, 0xD3, 0x40, 0x8D, 0x20, 0xA1, 0xC8, 0xDA, 0x81, 0xD9, 0xDB, 0xA6, 0x2E, 0xAF]

/-! ## Bitmaps -/

/-- A read `bmp[z]` through the `const uint8_t*` argument of
`OLED_DrawBitmap`; the memory behind the pointer is the function `bmp`. -/
def bmp_at (bmp : Nat → Nat) (z : Nat) : Nat := bmp z % 256

/-- The inner loop `for(uint8_t x = x0; x < x0+w; x++)` of `OLED_DrawBitmap`:
`xlim` is `x0 + w`, computed at `int` width, the counter `x` is 8 bits wide.
At most `fuel` iterations are run; the result is the state, the index `z` and
the counter at the exit, or `none` when the loop has not ended by then. -/
def OLED_DrawBitmap_row (bmp : Nat → Nat) (inverted : Bool) (xlim : Nat) :
    Nat → Nat → Nat → OLED → Option (OLED × Nat × Nat)
  | 0, x, z, s => if x < xlim then none else some (s, z, x)
  | fuel + 1, x, z, s =>
    if x < xlim then
      let s := I2C_write (if inverted then compl8 (bmp_at bmp z) else bmp_at bmp z) s
      OLED_DrawBitmap_row bmp inverted xlim fuel ((x + 1) % 256) (z + 1) s
    else some (s, z, x)

/-- The outer loop `for(uint8_t y = y0; y < y0+(h/8); y++)` of
`OLED_DrawBitmap`: `ylim` is `y0 + h/8`, computed at `int` width, the counter
`y` is 8 bits wide. At most `fuel` iterations are run, each inner loop with
at most `rowfuel` iterations. -/
def OLED_DrawBitmap_rows (bmp : Nat → Nat) (inverted : Bool) (x0 w ylim rowfuel : Nat) :
    Nat → Nat → Nat → OLED → Option (OLED × Nat × Nat)
  | 0, y, z, s => if y < ylim then none else some (s, z, y)
  | fuel + 1, y, z, s =>
    if y < ylim then
      let s := OLED_setpos x0 y s
      let s := I2C_start OLED_ADDR s
      let s := I2C_write OLED_DAT_MODE s
      match OLED_DrawBitmap_row bmp inverted (x0 + w) rowfuel x0 z s with
      | none => none
      | some (s, z, _) =>
        let s := I2C_stop s
        OLED_DrawBitmap_rows bmp inverted x0 w ylim rowfuel fuel ((y + 1) % 256) z s
    else some (s, z, y)

/-- `void OLED_DrawBitmap(uint8_t x0, uint8_t y0, uint8_t w, uint8_t h, const uint8_t* bmp, bool inverted)`,
each loop run for at most `fuel` iterations: `none` when a loop has not
ended by then. -/
def OLED_DrawBitmap (fuel x0 y0 w h : Nat) (bmp : Nat → Nat) (inverted : Bool) (s : OLED) :
    Option OLED :=
  (OLED_DrawBitmap_rows bmp inverted x0 w (y0 + h / 8) fuel fuel y0 0 s).map (fun r => r.1)

/-- The payload of one row of a bitmap: the `w` source bytes from index `z`
on, each complemented when `inverted` is set. -/
def row_bytes (bmp : Nat → Nat) (inverted : Bool) (z w : Nat) : List Nat :=
  (List.range w).map (fun j => if inverted then 255 - bmp_at bmp (z + j) else bmp_at bmp (z + j))

/-- The bus trace of `OLED_setpos(x, y)`. -/
def setpos_trace (x y : Nat) : List I2C :=
  transaction 0x00 [(0xB0 ||| y) % 256, (x &&& 0x0F) % 256, (0x10 ||| (x >>> 4)) % 256]

/-- The groups of a bitmap drawing: for `k` below `n`, the position command
for `(x0, y + k)` followed by one data transaction with the `w` source bytes
from index `z + k * w` on. -/
def bitmap_groups (bmp : Nat → Nat) (inverted : Bool) (x0 w y z n : Nat) : List (List I2C) :=
  (List.range n).map (fun k =>
    setpos_trace x0 (y + k) ++ transaction 0x40 (row_bytes bmp inverted (z + k * w) w))

/-- One bus call in the count of data bytes: the phase of the transmission
and the number of bytes sent so far in data mode (after a control byte 0x40). -/
def data_bytes_step (st : Phase × Nat) : I2C → Phase × Nat
  | I2C.start _ => (Phase.control, st.2)
  | I2C.stop => (Phase.idle, st.2)
  | I2C.write b =>
    match st.1 with
    | Phase.idle => st
    | Phase.control => (if b = 0x40 then Phase.data else Phase.command, st.2)
    | Phase.command => st
    | Phase.data => (Phase.data, st.2 + 1)

/-- The number of data bytes in a bus trace: the bytes written inside
transactions whose control byte is 0x40. -/
def data_bytes (t : List I2C) : Nat := (t.foldl data_bytes_step (Phase.idle, 0)).2

/-! ## The public operations as one step function -/

/-- The operations declared in `oled_segment.h` and implemented in
`oled_small.c`, with their arguments. -/
inductive Op where
  | init
  | clear
  | write (c : Nat) (inverted : Bool)
  | print (str : List Nat)
  | printS (str : List Nat) (inverted : Bool)
  | println (str : List Nat) (inverted : Bool)
  | printD (value : Nat) (inverted : Bool)
  | printL (value : Nat) (inverted : Bool)
  | printW (value : Nat) (inverted : Bool)
  | printB (value : Nat) (inverted : Bool)
  | setpos (x y : Nat)
  | fill (p : Nat)
  | scrollDisplay
  | drawBitmap (fuel x0 y0 w h : Nat) (bmp : Nat → Nat) (inverted : Bool)

/-- One call of a public operation; `none` only for an `OLED_DrawBitmap`
whose loops do not end within the fuel. -/
def run_op (font5x8 : Int → Nat → Nat) : Op → OLED → Option OLED
  | Op.init, s => some (OLED_init s)
  | Op.clear, s => some (OLED_clear s)
  | Op.write c inverted, s => some (OLED_write font5x8 c inverted s)
  | Op.print str, s => some (OLED_print font5x8 str s)
  | Op.printS str inverted, s => some (OLED_printS font5x8 str inverted s)
  | Op.println str inverted, s => some (OLED_println font5x8 str inverted s)
  | Op.printD value inverted, s => some (OLED_printD font5x8 value inverted s)
  | Op.printL value inverted, s => some (OLED_printL font5x8 value inverted s)
  | Op.printW value inverted, s => some (OLED_printW font5x8 value inverted s)
  | Op.printB value inverted, s => some (OLED_printB font5x8 value inverted s)
  | Op.setpos x y, s => some (OLED_setpos x y s)
  | Op.fill p, s => some (OLED_fill p s)
  | Op.scrollDisplay, s => some (OLED_scrollDisplay s)
  | Op.drawBitmap fuel x0 y0 w h bmp inverted, s => OLED_DrawBitmap fuel x0 y0 w h bmp inverted s

/-- The states the driver reaches from program start by public operations. -/
inductive Reachable (font5x8 : Int → Nat → Nat) : OLED → Prop where
  | start : Reachable font5x8 OLED_reset
  | step (op : Op) (s t : OLED) : Reachable font5x8 s → run_op font5x8 op s = some t →
      Reachable font5x8 t

/-- A bus trace that is a concatenation of complete transactions, each with
control byte 0x00 or 0x40. -/
def Framed (t : List I2C) : Prop :=
  ∃ txs : List (Nat × List Nat), (∀ tx ∈ txs, tx.1 = 0x00 ∨ tx.1 = 0x40) ∧
    t = (txs.map (fun tx => transaction tx.1 tx.2)).flatten

/-- The bus protocol, one call at a time: a start is legal only when no
transaction is open and must address 0x78, the first byte of a transaction
must be the control byte 0x00 or 0x40, further bytes are payload, a stop
closes a transaction that has its control byte; anything else is refused. -/
def bus_step : Phase → I2C → Option Phase
  | Phase.idle, I2C.start a => if a = 0x78 then some Phase.control else none
  | Phase.control, I2C.write b =>
    if b = 0x00 then some Phase.command else if b = 0x40 then some Phase.data else none
  | Phase.command, I2C.write _ => some Phase.command
  | Phase.data, I2C.write _ => some Phase.data
  | Phase.command, I2C.stop => some Phase.idle
  | Phase.data, I2C.stop => some Phase.idle
  | _, _ => none

/-- Checking a bus trace against the protocol: the phase at the end, or
`none` when a call is refused. -/
def bus_check : Phase → List I2C → Option Phase
  | ph, [] => some ph
  | ph, e :: t =>
    match bus_step ph e with
    | none => none
    | some ph1 => bus_check ph1 t

/-! ## A bounds-checked glyph table -/

/-- A lookup `table[row][i]` in a glyph table given as a list of rows, with
the error branch of a bounds-checked accessor: `none` when `row` or `i` is
out of range. -/
def font5x8_checked (table : List (List Nat)) (row : Int) (i : Nat) : Option Nat :=
  if row < 0 then none
  else
    match table[row.toNat]? with
    | none => none
    | some glyph => glyph[i]?

/-- The glyph table as the total function the driver model takes. -/
def font5x8_of (table : List (List Nat)) (row : Int) (i : Nat) : Nat :=
  (font5x8_checked table row i).getD 0

/-- The loop of `OLED_plotChar` over a bounds-checked table: `none` when a
lookup is out of range. -/
def OLED_plotChar_loop_checked (table : List (List Nat)) (c : Nat) (inverted : Bool) :
    Nat → Nat → OLED → Option OLED
  | 0, _, s => some s
  | n + 1, i, s =>
    match font5x8_checked table ((c : Int) - 32) i with
    | none => none
    | some g =>
      OLED_plotChar_loop_checked table c inverted n (i + 1)
        (I2C_write (if inverted then compl8 (g % 256) else g % 256) s)

/-- `OLED_plotChar` over a bounds-checked table. -/
def OLED_plotChar_checked (table : List (List Nat)) (c : Nat) (inverted : Bool) (s : OLED) :
    Option OLED :=
  let s := I2C_start OLED_ADDR s
  let s := I2C_write OLED_DAT_MODE s
  match OLED_plotChar_loop_checked table c inverted 5 0 s with
  | none => none
  | some s =>
    let s := I2C_write (if inverted then compl8 0x00 else 0x00) s
    some (I2C_stop s)

/-- `OLED_write` over a bounds-checked table. -/
def OLED_write_checked (table : List (List Nat)) (c : Nat) (inverted : Bool) (s : OLED) :
    Option OLED :=
  let c := c &&& 0x7F
  if c ≥ 32 then
    OLED_plotChar_checked table c inverted s
  else if c = 10 then
    let s := { s with column := 0 }
    let s := if s.line ≠ 7 then { s with line := (s.line + 1) % 256 } else s
    some (OLED_setline ((s.line + s.scroll) &&& 0x07) s)
  else if c = 13 then
    let s := { s with column := 0 }
    some (OLED_setline ((s.line + s.scroll) &&& 0x07) s)
  else some s

/-! ## Decimal printing: auxiliary facts -/

theorem DIVIDER_getD (n : Nat) (h : n ≤ 9) : DIVIDER.getD n 0 = 10 ^ n := by
  interval_cases n <;> rfl

theorem OLED_printD_sub_eq (d : Nat) (hd : 0 < d) :
    ∀ (fuel value digitval leadflag : Nat), value / d < fuel → digitval + value / d < 256 →
      OLED_printD_sub d fuel value digitval leadflag
        = (value % d, digitval + value / d, if d ≤ value then 1 else leadflag) := by
  intro fuel
  induction fuel with
  | zero => intro value digitval leadflag h; exact absurd h (Nat.not_lt_zero _)
  | succ f ih =>
    intro value digitval leadflag hf hb
    rw [OLED_printD_sub]
    by_cases hv : value ≥ d
    · have hq : value / d = (value - d) / d + 1 := by
        rw [← Nat.sub_add_cancel hv, Nat.add_div_right _ hd]
        simp
      have hm : (value - d) % d = value % d := by
        conv_rhs => rw [← Nat.sub_add_cancel hv]
        simp
      rw [hq] at hf hb
      rw [hq, ← hm]
      have key := ih (value - d) (digitval + 1) 1
      generalize (value - d) / d = q at hf hb key ⊢
      have h256 : (digitval + 1) % 256 = digitval + 1 := Nat.mod_eq_of_lt (by omega)
      rw [if_pos hv, h256, key (by omega) (by omega), if_pos hv]
      ext <;> simp
      omega
    · rw [if_neg hv]
      have h0 : value / d = 0 := Nat.div_eq_of_lt (by omega)
      have hm : value % d = value := Nat.mod_eq_of_lt (by omega)
      rw [h0, hm, if_neg (by omega)]
      rfl

theorem OLED_printD_loop_log (inverted : Bool) :
    ∀ (n value leadflag : Nat) (log : List Nat),
      OLED_printD_loop record_write inverted n value leadflag log
        = log ++ OLED_printD_loop record_write inverted n value leadflag [] := by
  intro n
  induction n with
  | zero => intro value leadflag log; simp [OLED_printD_loop]
  | succ n ih =>
    intro value leadflag log
    simp only [OLED_printD_loop]
    rw [ih]
    conv_rhs => rw [ih]
    split_ifs <;> simp [record_write]

theorem OLED_printD_loop_calls {σ : Type} (write : Nat → Bool → σ → σ) (inverted : Bool) :
    ∀ (n value leadflag : Nat) (s : σ),
      OLED_printD_loop write inverted n value leadflag s
        = (OLED_printD_loop record_write inverted n value leadflag []).foldl
            (fun s c => write c inverted s) s := by
  intro n
  induction n with
  | zero => intro value leadflag s; simp [OLED_printD_loop]
  | succ n ih =>
    intro value leadflag s
    simp only [OLED_printD_loop]
    rw [ih]
    conv_rhs => rw [OLED_printD_loop_log]
    split_ifs <;> simp [record_write]

theorem OLED_printD_loop_record (inverted : Bool) :
    ∀ (n : Nat), n ≤ 10 → ∀ (value leadflag : Nat), value < 10 ^ n → leadflag ≤ 1 →
      OLED_printD_loop record_write inverted n value leadflag []
        = if leadflag ≠ 0 then dec_padded n value else dec_canonical n value := by
  intro n
  induction n with
  | zero => intro _ value leadflag _ _; simp [OLED_printD_loop, dec_padded, dec_canonical]
  | succ n ih =>
    intro hn value leadflag hv hl
    have hpos : 0 < 10 ^ n := pow_pos (by norm_num) n
    have hq : value / 10 ^ n < 10 := by
      apply Nat.div_lt_of_lt_mul
      rw [pow_succ] at hv
      exact hv
    have hle : value / 10 ^ n ≤ value := Nat.div_le_self _ _
    have hr : value % 10 ^ n < 10 ^ n := Nat.mod_lt _ hpos
    have hz : value / 10 ^ n = 0 ↔ value < 10 ^ n := Nat.div_eq_zero_iff hpos
    simp only [OLED_printD_loop]
    rw [DIVIDER_getD n (by omega),
      OLED_printD_sub_eq (10 ^ n) hpos (value + 1) value 0 leadflag (by omega) (by omega)]
    simp only [Nat.zero_add]
    have h48 : (value / 10 ^ n + 48) % 256 = value / 10 ^ n + 48 := Nat.mod_eq_of_lt (by omega)
    rw [h48, OLED_printD_loop_log]
    by_cases h0 : n = 0
    · subst h0
      have hlf : ((if 10 ^ 0 ≤ value then 1 else leadflag) + 1) % 256 ≠ 0 := by
        split_ifs <;> omega
      simp only [if_true, if_pos hlf, OLED_printD_loop, dec_padded, dec_canonical, true_or]
      simp [record_write]
    · simp only [if_neg h0]
      by_cases hge : 10 ^ n ≤ value
      · have ih1 := ih (by omega) (value % 10 ^ n) 1 hr (le_refl 1)
        simp only [if_pos hge, ih1, dec_padded, dec_canonical, or_true]
        simp [record_write, hge]
      · have ih1 := ih (by omega) (value % 10 ^ n) leadflag hr hl
        have hlt : value < 10 ^ n := by omega
        have hd0 : value / 10 ^ n = 0 := hz.mpr hlt
        have hm : value % 10 ^ n = value := Nat.mod_eq_of_lt hlt
        rw [hm] at ih1
        simp only [if_neg hge, ih1, dec_padded, dec_canonical, h0, false_or, hd0, hm]
        by_cases hl0 : leadflag = 0
        · simp [hl0]
        · simp [hl0, record_write]

theorem dec_padded_length : ∀ (n v : Nat), (dec_padded n v).length = n := by
  intro n
  induction n with
  | zero => intro v; rfl
  | succ n ih => intro v; simp [dec_padded, ih]

theorem dec_padded_digit : ∀ (n v : Nat), v < 10 ^ n → ∀ c ∈ dec_padded n v, 48 ≤ c ∧ c ≤ 57 := by
  intro n
  induction n with
  | zero => intro v _ c hc; simp [dec_padded] at hc
  | succ n ih =>
    intro v hv c hc
    have hpos : 0 < 10 ^ n := pow_pos (by norm_num) n
    have hq : v / 10 ^ n < 10 := by
      apply Nat.div_lt_of_lt_mul
      rw [pow_succ] at hv
      exact hv
    simp only [dec_padded, List.mem_cons] at hc
    rcases hc with hc | hc
    · generalize v / 10 ^ n = q at hq hc
      omega
    · exact ih _ (Nat.mod_lt _ hpos) c hc

theorem dec_padded_value : ∀ (n v a : Nat), v < 10 ^ n →
    (dec_padded n v).foldl (fun a c => 10 * a + (c - 48)) a = a * 10 ^ n + v := by
  intro n
  induction n with
  | zero => intro v a hv; simp [dec_padded] at hv ⊢; omega
  | succ n ih =>
    intro v a hv
    have hpos : 0 < 10 ^ n := pow_pos (by norm_num) n
    simp only [dec_padded, List.foldl_cons]
    rw [ih _ _ (Nat.mod_lt _ hpos), Nat.add_sub_cancel, pow_succ]
    have hdm := Nat.div_add_mod v (10 ^ n)
    generalize v / 10 ^ n = q at hdm ⊢
    generalize v % 10 ^ n = r at hdm ⊢
    subst hdm
    ring

theorem dec_canonical_length : ∀ (n v : Nat), 1 ≤ n →
    1 ≤ (dec_canonical n v).length ∧ (dec_canonical n v).length ≤ n := by
  intro n
  induction n with
  | zero => intro v h; omega
  | succ n ih =>
    intro v _
    simp only [dec_canonical]
    split_ifs with h
    · rw [dec_padded_length]; omega
    · have hn : 1 ≤ n := by omega
      have := ih v hn
      omega

theorem dec_canonical_digit : ∀ (n v : Nat), v < 10 ^ n →
    ∀ c ∈ dec_canonical n v, 48 ≤ c ∧ c ≤ 57 := by
  intro n
  induction n with
  | zero => intro v _ c hc; simp [dec_canonical] at hc
  | succ n ih =>
    intro v hv c hc
    simp only [dec_canonical] at hc
    split_ifs at hc with h
    · exact dec_padded_digit _ _ hv c hc
    · exact ih v (by omega) c hc

theorem dec_canonical_value : ∀ (n v : Nat), v < 10 ^ n → dec_value (dec_canonical n v) = v := by
  intro n
  induction n with
  | zero => intro v hv; simp [dec_canonical, dec_value] at hv ⊢; omega
  | succ n ih =>
    intro v hv
    simp only [dec_canonical]
    split_ifs with h
    · rw [dec_value, dec_padded_value _ _ _ hv]; omega
    · exact ih v (by omega)

theorem dec_canonical_zero : ∀ (n : Nat), 1 ≤ n → dec_canonical n 0 = [48] := by
  intro n
  induction n with
  | zero => intro h; omega
  | succ n ih =>
    intro _
    simp only [dec_canonical]
    by_cases h0 : n = 0
    · subst h0; simp [dec_padded]
    · have hpos : 0 < 10 ^ n := pow_pos (by norm_num) n
      rw [if_neg (by omega)]
      exact ih (by omega)

theorem dec_canonical_head : ∀ (n v : Nat), v ≠ 0 → v < 10 ^ n →
    (dec_canonical n v).head? ≠ some 48 := by
  intro n
  induction n with
  | zero => intro v _ _; simp [dec_canonical]
  | succ n ih =>
    intro v hv0 hv
    have hpos : 0 < 10 ^ n := pow_pos (by norm_num) n
    simp only [dec_canonical]
    split_ifs with h
    · have hq : v / 10 ^ n ≠ 0 := by
        rcases h with h | h
        · subst h; simpa using hv0
        · exact fun hz => absurd ((Nat.div_eq_zero_iff hpos).mp hz) (by omega)
      simp only [dec_padded, List.head?_cons, ne_eq, Option.some.injEq]
      omega
    · exact ih v hv0 (by omega)

/-- C1: for every 32-bit value `v` and either `inverted` flag, the characters
`OLED_printD(v, inverted)` passes to `OLED_write` are the canonical decimal
representation of `v`: between 1 and 10 characters, each one of the digits
0 to 9, exactly the single digit 0 when `v = 0`, no leading 0 otherwise, and
reading the digits back as a decimal number gives `v`; the driver's
`OLED_printD` is `OLED_write` applied to these characters in order. -/
theorem OLED_printD_canonical (v : Nat) (hv : v < 2 ^ 32) (inverted : Bool) :
    1 ≤ (OLED_printD_chars v inverted).length ∧
    (OLED_printD_chars v inverted).length ≤ 10 ∧
    (∀ c ∈ OLED_printD_chars v inverted, 48 ≤ c ∧ c ≤ 57) ∧
    (v = 0 → OLED_printD_chars v inverted = [48]) ∧
    (v ≠ 0 → (OLED_printD_chars v inverted).head? ≠ some 48) ∧
    dec_value (OLED_printD_chars v inverted) = v ∧
    (∀ (font5x8 : Int → Nat → Nat) (s : OLED),
      OLED_printD font5x8 v inverted s
        = (OLED_printD_chars v inverted).foldl (fun s c => OLED_write font5x8 c inverted s) s) := by
  have hv10 : v < 10 ^ 10 := lt_trans hv (by norm_num)
  have hcs : OLED_printD_chars v inverted = dec_canonical 10 v := by
    rw [OLED_printD_chars, OLED_printD_on,
      OLED_printD_loop_record inverted 10 (le_refl 10) v 0 hv10 (by omega)]
    simp
  refine ⟨?_, ?_, ?_, ?_, ?_, ?_, ?_⟩
  · rw [hcs]; exact (dec_canonical_length 10 v (by omega)).1
  · rw [hcs]; exact (dec_canonical_length 10 v (by omega)).2
  · rw [hcs]; exact dec_canonical_digit 10 v hv10
  · intro h0; rw [hcs, h0]; exact dec_canonical_zero 10 (by omega)
  · intro h0; rw [hcs]; exact dec_canonical_head 10 v h0 hv10
  · rw [hcs]; exact dec_canonical_value 10 v hv10
  · intro font5x8 s
    exact OLED_printD_loop_calls (OLED_write font5x8) inverted 10 v 0 s

/-- C1 at the largest 32-bit value. -/
theorem OLED_printD_canonical_witness :
    4294967295 < 2 ^ 32 ∧ dec_value (OLED_printD_chars 4294967295 true) = 4294967295 :=
  ⟨by norm_num, (OLED_printD_canonical 4294967295 (by norm_num) true).2.2.2.2.2.1⟩

/-! ## Hexadecimal printing -/

theorem OLED_printN_record (n : Nat) (hn : n < 16) (inverted : Bool) (log : List Nat) :
    OLED_printN_on record_write n inverted log = log ++ [hex_char n] := by
  simp only [OLED_printN_on, record_write]
  interval_cases n <;> rfl

theorem OLED_printB_record (b : Nat) (hb : b < 256) (inverted : Bool) (log : List Nat) :
    OLED_printB_on record_write b inverted log = log ++ [hex_char (b / 16), hex_char (b % 16)] := by
  have h15 : b &&& 0x0f = b % 16 := Nat.and_pow_two_sub_one_eq_mod b 4
  have h4 : b >>> 4 = b / 16 := Nat.shiftRight_eq_div_pow b 4
  simp only [OLED_printB_on]
  rw [h15, h4, OLED_printN_record _ (by omega), OLED_printN_record _ (by omega)]
  simp

theorem OLED_printW_record (w : Nat) (inverted : Bool) (log : List Nat) :
    OLED_printW_on record_write w inverted log
      = log ++ [hex_char (w / 4096 % 16), hex_char (w / 256 % 16),
                hex_char (w / 16 % 16), hex_char (w % 16)] := by
  have h8 : w >>> 8 = w / 256 := Nat.shiftRight_eq_div_pow w 8
  simp only [OLED_printW_on]
  rw [h8, OLED_printB_record _ (Nat.mod_lt _ (by norm_num)),
    OLED_printB_record _ (Nat.mod_lt _ (by norm_num))]
  have e1 : w / 256 % 256 / 16 = w / 4096 % 16 := by omega
  have e2 : w / 256 % 256 % 16 = w / 256 % 16 := by omega
  have e3 : w % 256 / 16 = w / 16 % 16 := by omega
  have e4 : w % 256 % 16 = w % 16 := by omega
  rw [e1, e2, e3, e4]
  simp

theorem OLED_printL_record (l : Nat) (inverted : Bool) (log : List Nat) :
    OLED_printL_on record_write l inverted log
      = log ++ [hex_char (l / 268435456 % 16), hex_char (l / 16777216 % 16),
                hex_char (l / 1048576 % 16), hex_char (l / 65536 % 16),
                hex_char (l / 4096 % 16), hex_char (l / 256 % 16),
                hex_char (l / 16 % 16), hex_char (l % 16)] := by
  have h16 : l >>> 16 = l / 65536 := Nat.shiftRight_eq_div_pow l 16
  simp only [OLED_printL_on]
  rw [h16, OLED_printW_record, OLED_printW_record]
  have e1 : l / 65536 % 65536 / 4096 % 16 = l / 268435456 % 16 := by omega
  have e2 : l / 65536 % 65536 / 256 % 16 = l / 16777216 % 16 := by omega
  have e3 : l / 65536 % 65536 / 16 % 16 = l / 1048576 % 16 := by omega
  have e4 : l / 65536 % 65536 % 16 = l / 65536 % 16 := by omega
  have e5 : l % 65536 / 4096 % 16 = l / 4096 % 16 := by omega
  have e6 : l % 65536 / 256 % 16 = l / 256 % 16 := by omega
  have e7 : l % 65536 / 16 % 16 = l / 16 % 16 := by omega
  have e8 : l % 65536 % 16 = l % 16 := by omega
  rw [e1, e2, e3, e4, e5, e6, e7, e8]
  simp

theorem hex_fixed_two (v : Nat) (hv : v < 256) :
    hex_fixed 2 v = [hex_char (v / 16), hex_char (v % 16)] := by
  have hm : ∀ x : Nat, x &&& 0xF = x % 16 := fun x => Nat.and_pow_two_sub_one_eq_mod x 4
  have e1 : v / 16 % 16 = v / 16 := by omega
  simp [hex_fixed, List.range_succ, hm, Nat.shiftRight_eq_div_pow, e1]

theorem hex_fixed_four (v : Nat) :
    hex_fixed 4 v = [hex_char (v / 4096 % 16), hex_char (v / 256 % 16),
                     hex_char (v / 16 % 16), hex_char (v % 16)] := by
  have hm : ∀ x : Nat, x &&& 0xF = x % 16 := fun x => Nat.and_pow_two_sub_one_eq_mod x 4
  simp [hex_fixed, List.range_succ, hm, Nat.shiftRight_eq_div_pow]

theorem hex_fixed_eight (v : Nat) :
    hex_fixed 8 v = [hex_char (v / 268435456 % 16), hex_char (v / 16777216 % 16),
                hex_char (v / 1048576 % 16), hex_char (v / 65536 % 16),
                hex_char (v / 4096 % 16), hex_char (v / 256 % 16),
                hex_char (v / 16 % 16), hex_char (v % 16)] := by
  have hm : ∀ x : Nat, x &&& 0xF = x % 16 := fun x => Nat.and_pow_two_sub_one_eq_mod x 4
  simp [hex_fixed, List.range_succ, hm, Nat.shiftRight_eq_div_pow]

theorem hex_fixed_length (width value : Nat) : (hex_fixed width value).length = width := by
  simp [hex_fixed]

theorem hex_fixed_mem (width value c : Nat) (h : c ∈ hex_fixed width value) : c ∈ hex_digits := by
  have hm : ∀ x : Nat, x &&& 0xF = x % 16 := fun x => Nat.and_pow_two_sub_one_eq_mod x 4
  simp only [hex_fixed, List.mem_map, hm] at h
  obtain ⟨k, _, rfl⟩ := h
  have hlt : value >>> (4 * (width - 1 - k)) % 16 < 16 := Nat.mod_lt _ (by norm_num)
  generalize value >>> (4 * (width - 1 - k)) % 16 = n at hlt
  interval_cases n <;> decide

theorem OLED_printB_calls {σ : Type} (write : Nat → Bool → σ → σ) (v : Nat) (inverted : Bool)
    (s : σ) :
    OLED_printB_on write v inverted s
      = (OLED_printB_on record_write v inverted []).foldl (fun s c => write c inverted s) s := by
  simp [OLED_printB_on, OLED_printN_on, record_write]

theorem OLED_printW_calls {σ : Type} (write : Nat → Bool → σ → σ) (v : Nat) (inverted : Bool)
    (s : σ) :
    OLED_printW_on write v inverted s
      = (OLED_printW_on record_write v inverted []).foldl (fun s c => write c inverted s) s := by
  simp [OLED_printW_on, OLED_printB_on, OLED_printN_on, record_write]

theorem OLED_printL_calls {σ : Type} (write : Nat → Bool → σ → σ) (v : Nat) (inverted : Bool)
    (s : σ) :
    OLED_printL_on write v inverted s
      = (OLED_printL_on record_write v inverted []).foldl (fun s c => write c inverted s) s := by
  simp [OLED_printL_on, OLED_printW_on, OLED_printB_on, OLED_printN_on, record_write]

/-- C2: for every 8-bit `b`, 16-bit `w` and 32-bit `l` (the widths of `w` and
`l` are not even needed), the characters that
`OLED_printB(b)`, `OLED_printW(w)` and `OLED_printL(l)` pass to `OLED_write`
are the fixed-width (2, 4 and 8 characters) zero-padded uppercase hexadecimal
representation of the value, most significant nibble first: character `k` of
`n` is the digit of `(value >> 4 * (n - 1 - k)) & 0xF`, every character is one
of 0123456789ABCDEF, and the driver's functions are `OLED_write` applied to
these characters in order. -/
theorem OLED_printBWL_hex (b w l : Nat) (hb : b < 2 ^ 8) (inverted : Bool) :
    (OLED_printB_chars b inverted = hex_fixed 2 b ∧
      OLED_printW_chars w inverted = hex_fixed 4 w ∧
      OLED_printL_chars l inverted = hex_fixed 8 l) ∧
    ((OLED_printB_chars b inverted).length = 2 ∧
      (OLED_printW_chars w inverted).length = 4 ∧
      (OLED_printL_chars l inverted).length = 8) ∧
    (∀ c, (c ∈ OLED_printB_chars b inverted ∨ c ∈ OLED_printW_chars w inverted ∨
        c ∈ OLED_printL_chars l inverted) → c ∈ hex_digits) ∧
    (∀ (font5x8 : Int → Nat → Nat) (s : OLED),
      OLED_printB font5x8 b inverted s
        = (OLED_printB_chars b inverted).foldl (fun s c => OLED_write font5x8 c inverted s) s ∧
      OLED_printW font5x8 w inverted s
        = (OLED_printW_chars w inverted).foldl (fun s c => OLED_write font5x8 c inverted s) s ∧
      OLED_printL font5x8 l inverted s
        = (OLED_printL_chars l inverted).foldl (fun s c => OLED_write font5x8 c inverted s) s) := by
  have hB : OLED_printB_chars b inverted = hex_fixed 2 b := by
    rw [OLED_printB_chars, OLED_printB_record b (by omega), hex_fixed_two b (by omega)]
    simp
  have hW : OLED_printW_chars w inverted = hex_fixed 4 w := by
    rw [OLED_printW_chars, OLED_printW_record, hex_fixed_four]
    simp
  have hL : OLED_printL_chars l inverted = hex_fixed 8 l := by
    rw [OLED_printL_chars, OLED_printL_record, hex_fixed_eight]
    simp
  refine ⟨⟨hB, hW, hL⟩, ⟨?_, ?_, ?_⟩, ?_, ?_⟩
  · rw [hB, hex_fixed_length]
  · rw [hW, hex_fixed_length]
  · rw [hL, hex_fixed_length]
  · intro c hc
    rw [hB, hW, hL] at hc
    rcases hc with hc | hc | hc <;> exact hex_fixed_mem _ _ c hc
  · intro font5x8 s
    exact ⟨OLED_printB_calls _ b inverted s, OLED_printW_calls _ w inverted s,
      OLED_printL_calls _ l inverted s⟩

/-- C2 at `0xA5`, `0x0BEF` and `0xDEADBEEF`. -/
theorem OLED_printBWL_hex_witness :
    0xA5 < 2 ^ 8 ∧
    OLED_printB_chars 0xA5 false = hex_fixed 2 0xA5 ∧
    OLED_printW_chars 0x0BEF false = hex_fixed 4 0x0BEF ∧
    OLED_printL_chars 0xDEADBEEF false = hex_fixed 8 0xDEADBEEF :=
  ⟨by norm_num,
    (OLED_printBWL_hex 0xA5 0x0BEF 0xDEADBEEF (by norm_num) false).1⟩

/-! ## Bus traces of the driver's operations -/

theorem write_repeat_eq (p : Nat) : ∀ (n : Nat) (s : OLED),
    write_repeat p n s = { s with bus := s.bus ++ List.replicate n (I2C.write (p % 256)) } := by
  intro n
  induction n with
  | zero => intro s; simp [write_repeat]
  | succ n ih =>
    intro s
    rw [write_repeat, ih]
    simp [I2C_write, List.replicate_succ]

theorem write_all_eq : ∀ (bs : List Nat) (s : OLED),
    write_all bs s = { s with bus := s.bus ++ bs.map (fun b => I2C.write (b % 256)) } := by
  intro bs
  induction bs with
  | nil => intro s; simp [write_all]
  | cons b bs ih =>
    intro s
    rw [write_all, ih]
    simp [I2C_write]

theorem OLED_setline_eq (ln : Nat) (s : OLED) :
    OLED_setline ln s = { s with bus := s.bus ++ transaction 0x00 [(0xB0 + ln) % 256, 0x00, 0x10] } := by
  simp [OLED_setline, I2C_start, I2C_write, I2C_stop, transaction, OLED_ADDR, OLED_CMD_MODE,
    OLED_PAGE]

theorem OLED_setpos_eq (x y : Nat) (s : OLED) :
    OLED_setpos x y s = { s with bus := s.bus ++
      (transaction 0x00 [(0xB0 ||| y) % 256, (x &&& 0x0F) % 256, (0x10 ||| (x >>> 4)) % 256]) } := by
  simp [OLED_setpos, I2C_start, I2C_write, I2C_stop, transaction, OLED_ADDR, OLED_CMD_MODE,
    OLED_PAGE, OLED_COLUMN_HIGH]

theorem data_repeat_eq (p n : Nat) (s : OLED) :
    I2C_stop (write_repeat p n (I2C_write OLED_DAT_MODE (I2C_start OLED_ADDR s)))
      = { s with bus := s.bus ++ transaction 0x40 (List.replicate n (p % 256)) } := by
  rw [write_repeat_eq]
  simp [I2C_start, I2C_write, I2C_stop, transaction, OLED_ADDR, OLED_DAT_MODE]

theorem OLED_clearline_eq (ln : Nat) (s : OLED) :
    OLED_clearline ln s = { s with bus := s.bus ++
      (transaction 0x00 [(0xB0 + ln) % 256, 0x00, 0x10]
        ++ transaction 0x40 (List.replicate 128 0x00)) } := by
  simp only [OLED_clearline]
  rw [data_repeat_eq, OLED_setline_eq]
  simp only [List.append_assoc, Nat.zero_mod]

theorem OLED_clear_eq (s : OLED) :
    OLED_clear s = { s with bus := s.bus ++
      (transaction 0x00 [0xB0, 0x00, 0x10] ++ transaction 0x40 (List.replicate 1024 0x00)) } := by
  have h : OLED_setpos 0 0 s = { s with bus := s.bus ++ transaction 0x00 [0xB0, 0x00, 0x10] } := by
    rw [OLED_setpos_eq]; rfl
  simp only [OLED_clear]
  rw [data_repeat_eq, h]
  simp only [List.append_assoc, Nat.zero_mod, Nat.reduceMul]

theorem OLED_plotChar_eq (font5x8 : Int → Nat → Nat) (c : Nat) (inverted : Bool) (s : OLED) :
    OLED_plotChar font5x8 c inverted s = { s with bus := s.bus ++
      (transaction 0x40
        (((List.range 5).map (fun i =>
            if inverted then 255 - font5x8_at font5x8 ((c : Int) - 32) i
            else font5x8_at font5x8 ((c : Int) - 32) i))
          ++ [if inverted then 0xFF else 0x00])) } := by
  have hlt : ∀ i, font5x8_at font5x8 ((c : Int) - 32) i < 256 :=
    fun i => Nat.mod_lt _ (by norm_num)
  have hm : ∀ i, font5x8_at font5x8 ((c : Int) - 32) i % 256
      = font5x8_at font5x8 ((c : Int) - 32) i := fun i => Nat.mod_eq_of_lt (hlt i)
  have hc : ∀ i, (255 - font5x8_at font5x8 ((c : Int) - 32) i) % 256
      = 255 - font5x8_at font5x8 ((c : Int) - 32) i := fun i => Nat.mod_eq_of_lt (by omega)
  cases inverted <;>
    simp [OLED_plotChar, OLED_plotChar_loop, I2C_start, I2C_write, I2C_stop, transaction,
      OLED_ADDR, OLED_DAT_MODE, compl8, List.range_succ, hm, hc]

theorem and_seven (x : Nat) : x &&& 0x07 = x % 8 := Nat.and_pow_two_sub_one_eq_mod x 3

theorem and_mask7 (c : Nat) : c &&& 0x7F = c % 128 := Nat.and_pow_two_sub_one_eq_mod c 7

/-! ## Control characters and glyphs -/

/-- C3: from a cursor state with `line <= 7` (and any scroll, so in particular
`scroll <= 7`), `OLED_write` of the newline character sets `line` to
`min (line + 1) 7`, sets `column` to 0, leaves `scroll` unchanged and emits
exactly one command transaction that positions the controller at page
`(new line + scroll) mod 8`, column 0; at `line = 7` the line stays 7 and the
transaction is still emitted. -/
theorem OLED_write_newline (font5x8 : Int → Nat → Nat) (s : OLED) (hl : s.line ≤ 7)
    (inverted : Bool) :
    OLED_write font5x8 10 inverted s =
      { line := min (s.line + 1) 7, column := 0, scroll := s.scroll,
        bus := s.bus ++ [I2C.start 0x78, I2C.write 0x00,
          I2C.write (0xB0 + (min (s.line + 1) 7 + s.scroll) % 8),
          I2C.write 0x00, I2C.write 0x10, I2C.stop] } := by
  have hc : (10 : Nat) &&& 0x7F = 10 := by decide
  simp only [OLED_write, hc, OLED_setline_eq, and_seven, transaction]
  by_cases h7 : s.line = 7
  · have hm : min (s.line + 1) 7 = 7 := by omega
    have hp : (0xB0 + (7 + s.scroll) % 8) % 256 = 0xB0 + (7 + s.scroll) % 8 := by omega
    simp [h7, hp]
  · have hm : min (s.line + 1) 7 = s.line + 1 := by omega
    have h256 : (s.line + 1) % 256 = s.line + 1 := by omega
    have hp : (0xB0 + (s.line + 1 + s.scroll) % 8) % 256 = 0xB0 + (s.line + 1 + s.scroll) % 8 := by
      omega
    simp [h7, hm, h256, hp]

/-- C3 at the last line, with scroll 2: the line stays 7 and page 1 is addressed. -/
theorem OLED_write_newline_witness :
    (7 : Nat) ≤ 7 ∧
    OLED_write (fun _ _ => 0) 10 false { line := 7, column := 9, scroll := 2, bus := [] } =
      { line := 7, column := 0, scroll := 2,
        bus := [I2C.start 0x78, I2C.write 0x00, I2C.write 0xB1, I2C.write 0x00, I2C.write 0x10,
          I2C.stop] } :=
  ⟨le_refl 7, OLED_write_newline (fun _ _ => 0) { line := 7, column := 9, scroll := 2, bus := [] }
    (le_refl 7) false⟩

/-- C4: from every cursor state, `OLED_write` of the carriage return sets
`column` to 0, leaves `line` and `scroll` unchanged and emits exactly one
command transaction that positions the controller at page
`(line + scroll) mod 8`, column 0. -/
theorem OLED_write_carriage_return (font5x8 : Int → Nat → Nat) (s : OLED) (inverted : Bool) :
    OLED_write font5x8 13 inverted s =
      { line := s.line, column := 0, scroll := s.scroll,
        bus := s.bus ++ [I2C.start 0x78, I2C.write 0x00,
          I2C.write (0xB0 + (s.line + s.scroll) % 8),
          I2C.write 0x00, I2C.write 0x10, I2C.stop] } := by
  have hc : (13 : Nat) &&& 0x7F = 13 := by decide
  have hp : (0xB0 + (s.line + s.scroll) % 8) % 256 = 0xB0 + (s.line + s.scroll) % 8 := by omega
  simp [OLED_write, hc, OLED_setline_eq, and_seven, transaction, hp]

/-- C5: for every input byte `c` whose low seven bits are at least 32,
`OLED_write(c, inverted)` leaves the cursor alone and emits exactly one data
transaction: start to 0x78, control byte 0x40, six payload bytes, stop. With
`inverted` false the payload is the five bytes of the glyph row
`(c & 0x7F) - 32` followed by 0x00; with `inverted` true it is their 8-bit
complements followed by 0xFF, that is, bytewise `255 - b` of the former. -/
theorem OLED_write_glyph (font5x8 : Int → Nat → Nat) (c : Nat) (h : (c &&& 0x7F) ≥ 32)
    (s : OLED) :
    (∀ i, font5x8_at font5x8 (((c &&& 0x7F : Nat) : Int) - 32) i ≤ 255) ∧
    OLED_write font5x8 c false s =
      { s with bus := s.bus ++ ([I2C.start 0x78, I2C.write 0x40] ++
          ([font5x8_at font5x8 (((c &&& 0x7F : Nat) : Int) - 32) 0,
            font5x8_at font5x8 (((c &&& 0x7F : Nat) : Int) - 32) 1,
            font5x8_at font5x8 (((c &&& 0x7F : Nat) : Int) - 32) 2,
            font5x8_at font5x8 (((c &&& 0x7F : Nat) : Int) - 32) 3,
            font5x8_at font5x8 (((c &&& 0x7F : Nat) : Int) - 32) 4,
            0x00].map I2C.write) ++ [I2C.stop]) } ∧
    OLED_write font5x8 c true s =
      { s with bus := s.bus ++ ([I2C.start 0x78, I2C.write 0x40] ++
          ([font5x8_at font5x8 (((c &&& 0x7F : Nat) : Int) - 32) 0,
            font5x8_at font5x8 (((c &&& 0x7F : Nat) : Int) - 32) 1,
            font5x8_at font5x8 (((c &&& 0x7F : Nat) : Int) - 32) 2,
            font5x8_at font5x8 (((c &&& 0x7F : Nat) : Int) - 32) 3,
            font5x8_at font5x8 (((c &&& 0x7F : Nat) : Int) - 32) 4,
            0x00].map (fun b => I2C.write (255 - b))) ++ [I2C.stop]) } := by
  refine ⟨fun i => Nat.le_of_lt_succ (Nat.mod_lt _ (by norm_num)), ?_, ?_⟩
  · simp only [OLED_write, if_pos h, OLED_plotChar_eq]
    simp [transaction, List.range_succ]
  · simp only [OLED_write, if_pos h, OLED_plotChar_eq]
    simp [transaction, List.range_succ]

/-- C5 at the byte 0xC1, whose low seven bits are the letter A (glyph row 33). -/
theorem OLED_write_glyph_witness :
    ((0xC1 : Nat) &&& 0x7F) ≥ 32 ∧
    (OLED_write (fun r i => r.toNat + i) 0xC1 true OLED_reset).bus =
      [I2C.start 0x78, I2C.write 0x40, I2C.write 222, I2C.write 221, I2C.write 220,
        I2C.write 219, I2C.write 218, I2C.write 0xFF, I2C.stop] :=
  ⟨by decide, by
    rw [(OLED_write_glyph (fun r i => r.toNat + i) 0xC1 (by decide) OLED_reset).2.2]
    decide⟩

/-- C6: `OLED_write` looks only at the low seven bits of its input: for every
byte `c`, flag and cursor state, `OLED_write(c, inverted)` gives the same bus
trace and the same cursor state as `OLED_write(c & 0x7F, inverted)`. -/
theorem OLED_write_mask (font5x8 : Int → Nat → Nat) (c : Nat) (inverted : Bool) (s : OLED) :
    OLED_write font5x8 c inverted s = OLED_write font5x8 (c &&& 0x7F) inverted s := by
  simp only [OLED_write, Nat.and_assoc, Nat.and_self]

/-! ## Initialisation -/

theorem OLED_init_eq (s : OLED) :
    OLED_init s = { s with scroll := 0, bus := s.bus ++
      (transaction 0x00 ssd1306_init_sequence
        ++ (transaction 0x00 [0xB0, 0x00, 0x10] ++ transaction 0x40 (List.replicate 1024 0x00))
        ++ transaction 0x00 [0xB0, 0x00, 0x10]) } := by
  have h : ∀ t : OLED,
      OLED_setpos 0 0 t = { t with bus := t.bus ++ transaction 0x00 [0xB0, 0x00, 0x10] } := by
    intro t; rw [OLED_setpos_eq]; rfl
  have hseq : ssd1306_init_sequence.map (fun b => I2C.write (b % 256))
      = ssd1306_init_sequence.map I2C.write := by decide
  simp only [OLED_init, I2C_init]
  rw [h, OLED_clear_eq, write_all_eq, hseq]
  generalize List.replicate 1024 0x00 = zs
  simp [I2C_start, I2C_write, I2C_stop, transaction, OLED_ADDR, OLED_CMD_MODE]

theorem OLED_init_line (s : OLED) : (OLED_init s).line = s.line := by
  rw [OLED_init_eq]

theorem OLED_write_nl_line (font5x8 : Int → Nat → Nat) (inverted : Bool) (s : OLED) :
    (OLED_write font5x8 10 inverted s).line = if s.line ≠ 7 then (s.line + 1) % 256 else s.line := by
  have hc : (10 : Nat) &&& 0x7F = 10 := by decide
  simp only [OLED_write, hc, OLED_setline_eq]
  split_ifs <;> simp_all

/-- C7, refuted as stated: in the state reached by the start-up
`OLED_init()` and three newlines, a further `OLED_init()` leaves `line` at 3
(the cursor is not fully reset), and the next newline lands on line 4. -/
theorem OLED_init_keeps_line :
    (OLED_init after_three_newlines).line = 3 ∧
    ¬ ((OLED_init after_three_newlines).line = 0 ∧
        (OLED_init after_three_newlines).column = 0 ∧
        (OLED_init after_three_newlines).scroll = 0) ∧
    (OLED_write (fun _ _ => 0) 10 false (OLED_init after_three_newlines)).line = 4 := by
  have h3 : (OLED_init after_three_newlines).line = 3 := by
    rw [OLED_init_line, after_three_newlines, OLED_write_nl_line, OLED_write_nl_line,
      OLED_write_nl_line, OLED_init_line]
    rfl
  refine ⟨h3, fun h => ?_, ?_⟩
  · rw [h3] at h; exact absurd h.1 (by decide)
  · rw [OLED_write_nl_line, h3]
    rfl

/-- C7, amended: from every prior cursor state, after `OLED_init()` `scroll`
is 0, and `OLED_init()` followed by `OLED_init()` leaves the same cursor state
as a single `OLED_init()`; from every prior state with `line = 0` and
`column = 0` (in particular the state at program start) the cursor state after
`OLED_init()` is fully reset, `line = 0`, `column = 0`, `scroll = 0`, and a
newline written after the init lands on line 1. -/
theorem OLED_init_cursor (font5x8 : Int → Nat → Nat) (s : OLED) (inverted : Bool) :
    (OLED_init s).scroll = 0 ∧
    ((OLED_init (OLED_init s)).line = (OLED_init s).line ∧
      (OLED_init (OLED_init s)).column = (OLED_init s).column ∧
      (OLED_init (OLED_init s)).scroll = (OLED_init s).scroll) ∧
    (s.line = 0 → s.column = 0 →
      ((OLED_init s).line = 0 ∧ (OLED_init s).column = 0 ∧ (OLED_init s).scroll = 0) ∧
      (OLED_write font5x8 10 inverted (OLED_init s)).line = 1) := by
  refine ⟨?_, ⟨?_, ?_, ?_⟩, fun hl hc => ⟨⟨?_, ?_, ?_⟩, ?_⟩⟩
  · rw [OLED_init_eq]
  · rw [OLED_init_eq, OLED_init_eq]
  · rw [OLED_init_eq, OLED_init_eq]
  · rw [OLED_init_eq, OLED_init_eq]
  · rw [OLED_init_eq]; exact hl
  · rw [OLED_init_eq]; exact hc
  · rw [OLED_init_eq]
  · rw [OLED_write_nl_line, OLED_init_line, hl]
    rfl

/-- C7, amended, at the state of program start. -/
theorem OLED_init_cursor_witness :
    OLED_reset.line = 0 ∧ OLED_reset.column = 0 ∧
    (OLED_init OLED_reset).line = 0 ∧
    (OLED_write (fun _ _ => 0) 10 true (OLED_init OLED_reset)).line = 1 :=
  ⟨rfl, rfl, ((OLED_init_cursor (fun _ _ => 0) OLED_reset true).2.2 rfl rfl).1.1,
    ((OLED_init_cursor (fun _ _ => 0) OLED_reset true).2.2 rfl rfl).2⟩

/-- C8: after `OLED_init()` from any state, `OLED_print("A")` emits exactly
one bus transaction, a data transaction (start to 0x78, control byte 0x40)
with six payload bytes: the five bytes of glyph row `65 - 32 = 33` in order,
then 0x00; and the trace of `OLED_init()` ends with the command transaction
that sets page 0, column 0 (bytes 0x00, 0xB0, 0x00, 0x10). -/
theorem OLED_init_print_A (font5x8 : Int → Nat → Nat) (s : OLED) :
    (OLED_print font5x8 [65, 0] (OLED_init s)).bus =
      (OLED_init s).bus ++ [I2C.start 0x78, I2C.write 0x40,
        I2C.write (font5x8_at font5x8 33 0), I2C.write (font5x8_at font5x8 33 1),
        I2C.write (font5x8_at font5x8 33 2), I2C.write (font5x8_at font5x8 33 3),
        I2C.write (font5x8_at font5x8 33 4), I2C.write 0x00, I2C.stop] ∧
    (∃ before, (OLED_init s).bus = before ++
      [I2C.start 0x78, I2C.write 0x00, I2C.write 0xB0, I2C.write 0x00, I2C.write 0x10,
        I2C.stop]) := by
  have hA : (65 : Nat) &&& 0x7F = 65 := by decide
  constructor
  · generalize OLED_init s = t
    simp [OLED_print, OLED_write, hA, OLED_plotChar_eq, transaction, List.range_succ]
  · rw [OLED_init_eq]
    exact ⟨s.bus ++ (transaction 0x00 ssd1306_init_sequence
        ++ (transaction 0x00 [0xB0, 0x00, 0x10] ++ transaction 0x40 (List.replicate 1024 0x00))),
      by simp only [List.append_assoc]; rfl⟩

/-! ## Scrolling -/

theorem OLED_scrollDisplay_eq (s : OLED) (hs : s.scroll ≤ 7) :
    OLED_scrollDisplay s =
      { s with scroll := (s.scroll + 1) % 8, bus := s.bus ++ scroll_trace s.scroll } := by
  have hp : (0xB0 + s.scroll) % 256 = 0xB0 + s.scroll := by omega
  have hsh : ((s.scroll + 1) % 8) <<< 3 % 256 = 8 * ((s.scroll + 1) % 8) := by
    rw [Nat.shiftLeft_eq]; omega
  simp only [OLED_scrollDisplay, OLED_clearline_eq, and_seven, hp]
  generalize hz : List.replicate 128 0x00 = zs
  simp [I2C_start, I2C_write, I2C_stop, scroll_trace, transaction, OLED_ADDR, OLED_CMD_MODE,
    OLED_OFFSET, hsh, hz]

theorem OLED_scrollDisplay_iterate (s : OLED) (hs : s.scroll ≤ 7) : ∀ n : Nat,
    Nat.iterate OLED_scrollDisplay n s =
      { s with scroll := (s.scroll + n) % 8, bus := s.bus ++
        ((List.range n).map (fun k => scroll_trace ((s.scroll + k) % 8))).flatten } := by
  intro n
  induction n with
  | zero =>
    have h : s.scroll % 8 = s.scroll := by omega
    simp [h]
  | succ n ih =>
    rw [Function.iterate_succ_apply', ih, OLED_scrollDisplay_eq _ (by simp only; omega)]
    have h : ((s.scroll + n) % 8 + 1) % 8 = (s.scroll + (n + 1)) % 8 := by omega
    simp only [h, List.range_succ, List.map_append, List.flatten_append, List.map_cons,
      List.map_nil, List.flatten_cons, List.flatten_nil, List.append_nil, List.append_assoc]

/-- C9: for every starting scroll offset `s` in 0 to 7, eight calls of
`OLED_scrollDisplay()` in a row return `scroll` to `s` (and leave `line` and
`column` alone); the trace is the eight per-call traces for the pages
`s, s+1, ..., s+7` (mod 8), each of which sets the line to that page and
writes 128 zero data bytes there; and these eight pages are a permutation of
0 to 7, so every line is cleared exactly once per cycle. -/
theorem OLED_scrollDisplay_cycle (s : OLED) (hs : s.scroll ≤ 7) :
    (Nat.iterate OLED_scrollDisplay 8 s).scroll = s.scroll ∧
    (Nat.iterate OLED_scrollDisplay 8 s).line = s.line ∧
    (Nat.iterate OLED_scrollDisplay 8 s).column = s.column ∧
    (Nat.iterate OLED_scrollDisplay 8 s).bus = s.bus ++
      ((List.range 8).map (fun k => scroll_trace ((s.scroll + k) % 8))).flatten ∧
    ((List.range 8).map (fun k => (s.scroll + k) % 8)).Perm (List.range 8) := by
  rw [OLED_scrollDisplay_iterate s hs 8]
  refine ⟨?_, rfl, rfl, rfl, ?_⟩
  · show (s.scroll + 8) % 8 = s.scroll
    omega
  · generalize s.scroll = p at hs
    interval_cases p <;> decide

/-- C9 from scroll offset 5: the pages cleared are 5, 6, 7, 0, 1, 2, 3, 4. -/
theorem OLED_scrollDisplay_cycle_witness :
    (5 : Nat) ≤ 7 ∧
    (Nat.iterate OLED_scrollDisplay 8 { line := 2, column := 0, scroll := 5, bus := [] }).scroll = 5 ∧
    (List.range 8).map (fun k => (5 + k) % 8) = [5, 6, 7, 0, 1, 2, 3, 4] :=
  ⟨by decide,
    (OLED_scrollDisplay_cycle { line := 2, column := 0, scroll := 5, bus := [] } (by decide)).1,
    by decide⟩

/-- C10: from a cursor state with `scroll = s` in 0 to 7, one call of
`OLED_scrollDisplay()` emits, in order, the set-line command for page `s`
(0x00, 0xB0 + s, 0x00, 0x10), one data transaction of exactly 128 bytes 0x00,
and one command transaction with bytes 0x00, 0xD3, `8 * s1` where
`s1 = (s + 1) mod 8`; afterwards `scroll = s1` and `line` and `column` are
unchanged. -/
theorem OLED_scrollDisplay_step (s : OLED) (hs : s.scroll ≤ 7) :
    OLED_scrollDisplay s =
      { line := s.line, column := s.column, scroll := (s.scroll + 1) % 8,
        bus := s.bus ++
          ([I2C.start 0x78, I2C.write 0x00, I2C.write (0xB0 + s.scroll), I2C.write 0x00,
              I2C.write 0x10, I2C.stop]
            ++ ([I2C.start 0x78, I2C.write 0x40] ++ List.replicate 128 (I2C.write 0x00)
                ++ [I2C.stop])
            ++ [I2C.start 0x78, I2C.write 0x00, I2C.write 0xD3,
              I2C.write (8 * ((s.scroll + 1) % 8)), I2C.stop]) } ∧
    8 * ((s.scroll + 1) % 8) ∈ [0, 8, 16, 24, 32, 40, 48, 56] := by
  constructor
  · rw [OLED_scrollDisplay_eq s hs]
    simp only [scroll_trace, transaction, List.map_replicate]
    simp only [List.map_cons, List.map_nil, List.cons_append, List.nil_append, List.append_assoc]
  · generalize s.scroll = p at hs
    interval_cases p <;> decide

/-- C10 from scroll offset 7: the next offset is 0 and the offset byte is 0. -/
theorem OLED_scrollDisplay_step_witness :
    (7 : Nat) ≤ 7 ∧
    (OLED_scrollDisplay { line := 1, column := 0, scroll := 7, bus := [] }).scroll = 0 :=
  ⟨by decide, by
    rw [(OLED_scrollDisplay_step { line := 1, column := 0, scroll := 7, bus := [] }
      (by decide)).1]
    rfl⟩

/-! ## Cursor frame of the text and number printers -/

theorem OLED_printD_chars_eq (v : Nat) (hv : v < 10 ^ 10) (inverted : Bool) :
    OLED_printD_chars v inverted = dec_canonical 10 v := by
  rw [OLED_printD_chars, OLED_printD_on,
    OLED_printD_loop_record inverted 10 (le_refl 10) v 0 hv (by omega)]
  simp

theorem hex_char_mem (n : Nat) (hn : n < 16) : hex_char n ∈ hex_digits := by
  interval_cases n <;> decide

theorem hex_digits_printable (c : Nat) (h : c ∈ hex_digits) : 48 ≤ c ∧ c ≤ 70 := by
  have hall : ∀ d ∈ hex_digits, 48 ≤ d ∧ d ≤ 70 := by decide
  exact hall c h

theorem OLED_write_printable_eq (font5x8 : Int → Nat → Nat) (c : Nat) (h : (c &&& 0x7F) ≥ 32)
    (inverted : Bool) (s : OLED) :
    OLED_write font5x8 c inverted s = OLED_plotChar font5x8 (c &&& 0x7F) inverted s := by
  simp only [OLED_write, if_pos h]

theorem OLED_write_other_eq (font5x8 : Int → Nat → Nat) (c : Nat) (h : (c &&& 0x7F) < 32)
    (h10 : c &&& 0x7F ≠ 10) (h13 : c &&& 0x7F ≠ 13) (inverted : Bool) (s : OLED) :
    OLED_write font5x8 c inverted s = s := by
  have h32 : ¬ (c &&& 0x7F) ≥ 32 := by omega
  simp only [OLED_write, if_neg h32, if_neg h10, if_neg h13]

theorem OLED_write_cursor (font5x8 : Int → Nat → Nat) (c : Nat) (h10 : c &&& 0x7F ≠ 10)
    (h13 : c &&& 0x7F ≠ 13) (inverted : Bool) (s : OLED) :
    cursor (OLED_write font5x8 c inverted s) = cursor s := by
  by_cases h : (c &&& 0x7F) ≥ 32
  · rw [OLED_write_printable_eq font5x8 c h, OLED_plotChar_eq]
    rfl
  · rw [OLED_write_other_eq font5x8 c (by omega) h10 h13]

theorem OLED_write_foldl_cursor (font5x8 : Int → Nat → Nat) (inverted : Bool) :
    ∀ (cs : List Nat) (s : OLED), (∀ c ∈ cs, c &&& 0x7F ≠ 10 ∧ c &&& 0x7F ≠ 13) →
      cursor (cs.foldl (fun s c => OLED_write font5x8 c inverted s) s) = cursor s := by
  intro cs
  induction cs with
  | nil => intro s _; rfl
  | cons c cs ih =>
    intro s h
    rw [List.foldl_cons, ih _ (fun d hd => h d (List.mem_cons_of_mem _ hd)),
      OLED_write_cursor font5x8 c (h c (List.mem_cons_self _ _)).1 (h c (List.mem_cons_self _ _)).2]

theorem OLED_print_eq_printS (font5x8 : Int → Nat → Nat) : ∀ (str : List Nat) (s : OLED),
    OLED_print font5x8 str s = OLED_printS font5x8 str false s := by
  intro str
  induction str with
  | nil => intro s; rfl
  | cons c str ih =>
    intro s
    simp only [OLED_print, OLED_printS, ih]

theorem OLED_printS_cursor (font5x8 : Int → Nat → Nat) (inverted : Bool) :
    ∀ (str : List Nat) (s : OLED), (∀ c ∈ str, c &&& 0x7F ≠ 10 ∧ c &&& 0x7F ≠ 13) →
      cursor (OLED_printS font5x8 str inverted s) = cursor s := by
  intro str
  induction str with
  | nil => intro s _; rfl
  | cons c str ih =>
    intro s h
    simp only [OLED_printS]
    split_ifs
    · rfl
    · rw [ih _ (fun d hd => h d (List.mem_cons_of_mem _ hd)),
        OLED_write_cursor font5x8 c (h c (List.mem_cons_self _ _)).1
          (h c (List.mem_cons_self _ _)).2]

theorem plain_of_range (c : Nat) (h : 48 ≤ c ∧ c ≤ 70) : c &&& 0x7F ≠ 10 ∧ c &&& 0x7F ≠ 13 := by
  rw [and_mask7]
  omega

theorem OLED_printD_chars_plain (v : Nat) (hv : v < 2 ^ 32) (inverted : Bool) :
    ∀ c ∈ OLED_printD_chars v inverted, 48 ≤ c ∧ c ≤ 70 := by
  have hv10 : v < 10 ^ 10 := lt_trans hv (by norm_num)
  intro c hc
  rw [OLED_printD_chars_eq v hv10] at hc
  have := dec_canonical_digit 10 v hv10 c hc
  omega

theorem OLED_printB_chars_plain (b : Nat) (hb : b < 256) (inverted : Bool) :
    ∀ c ∈ OLED_printB_chars b inverted, 48 ≤ c ∧ c ≤ 70 := by
  intro c hc
  rw [OLED_printB_chars, OLED_printB_record b hb] at hc
  simp only [List.nil_append, List.mem_cons, List.mem_singleton, List.not_mem_nil, or_false] at hc
  rcases hc with rfl | rfl <;> exact hex_digits_printable _ (hex_char_mem _ (by omega))

theorem OLED_printW_chars_plain (w : Nat) (inverted : Bool) :
    ∀ c ∈ OLED_printW_chars w inverted, 48 ≤ c ∧ c ≤ 70 := by
  intro c hc
  rw [OLED_printW_chars, OLED_printW_record] at hc
  simp only [List.nil_append, List.mem_cons, List.mem_singleton, List.not_mem_nil, or_false] at hc
  rcases hc with rfl | rfl | rfl | rfl <;>
    exact hex_digits_printable _ (hex_char_mem _ (Nat.mod_lt _ (by norm_num)))

theorem OLED_printL_chars_plain (l : Nat) (inverted : Bool) :
    ∀ c ∈ OLED_printL_chars l inverted, 48 ≤ c ∧ c ≤ 70 := by
  intro c hc
  rw [OLED_printL_chars, OLED_printL_record] at hc
  simp only [List.nil_append, List.mem_cons, List.mem_singleton, List.not_mem_nil, or_false] at hc
  rcases hc with rfl | rfl | rfl | rfl | rfl | rfl | rfl | rfl <;>
    exact hex_digits_printable _ (hex_char_mem _ (Nat.mod_lt _ (by norm_num)))

theorem OLED_printD_eq_foldl (font5x8 : Int → Nat → Nat) (v : Nat) (inverted : Bool) (s : OLED) :
    OLED_printD font5x8 v inverted s
      = (OLED_printD_chars v inverted).foldl (fun s c => OLED_write font5x8 c inverted s) s :=
  OLED_printD_loop_calls (OLED_write font5x8) inverted 10 v 0 s

theorem OLED_printB_eq_foldl (font5x8 : Int → Nat → Nat) (v : Nat) (inverted : Bool) (s : OLED) :
    OLED_printB font5x8 v inverted s
      = (OLED_printB_chars v inverted).foldl (fun s c => OLED_write font5x8 c inverted s) s :=
  OLED_printB_calls _ v inverted s

theorem OLED_printW_eq_foldl (font5x8 : Int → Nat → Nat) (v : Nat) (inverted : Bool) (s : OLED) :
    OLED_printW font5x8 v inverted s
      = (OLED_printW_chars v inverted).foldl (fun s c => OLED_write font5x8 c inverted s) s :=
  OLED_printW_calls _ v inverted s

theorem OLED_printL_eq_foldl (font5x8 : Int → Nat → Nat) (v : Nat) (inverted : Bool) (s : OLED) :
    OLED_printL font5x8 v inverted s
      = (OLED_printL_chars v inverted).foldl (fun s c => OLED_write font5x8 c inverted s) s :=
  OLED_printL_calls _ v inverted s

/-- C19: printing printable text does not move the software cursor. From
every state and for either flag, `line`, `column` and `scroll` are unchanged
by `OLED_write(c, inverted)` when the low seven bits of `c` are at least 32,
by `OLED_print` and `OLED_printS` of a string with no character whose low
seven bits are newline or carriage return, by `OLED_printD` of a 32-bit value
and by `OLED_printB`, `OLED_printW`, `OLED_printL` of 8-, 16- and 32-bit
values (so `column` is not advanced by the columns a glyph occupies); and
`OLED_println` is `OLED_printS` followed by one `OLED_write` of a newline. -/
theorem OLED_text_keeps_cursor (font5x8 : Int → Nat → Nat) (inverted : Bool) (s : OLED) :
    (∀ c, (c &&& 0x7F) ≥ 32 → cursor (OLED_write font5x8 c inverted s) = cursor s) ∧
    (∀ str : List Nat, (∀ c ∈ str, c &&& 0x7F ≠ 10 ∧ c &&& 0x7F ≠ 13) →
      cursor (OLED_print font5x8 str s) = cursor s ∧
      cursor (OLED_printS font5x8 str inverted s) = cursor s) ∧
    (∀ v, v < 2 ^ 32 → cursor (OLED_printD font5x8 v inverted s) = cursor s) ∧
    (∀ b, b < 2 ^ 8 → cursor (OLED_printB font5x8 b inverted s) = cursor s) ∧
    (∀ w, w < 2 ^ 16 → cursor (OLED_printW font5x8 w inverted s) = cursor s) ∧
    (∀ l, l < 2 ^ 32 → cursor (OLED_printL font5x8 l inverted s) = cursor s) ∧
    (∀ str : List Nat, OLED_println font5x8 str inverted s
      = OLED_write font5x8 10 inverted (OLED_printS font5x8 str inverted s)) := by
  refine ⟨?_, ?_, ?_, ?_, ?_, ?_, ?_⟩
  · intro c h
    exact OLED_write_cursor font5x8 c (by omega) (by omega) inverted s
  · intro str h
    exact ⟨by rw [OLED_print_eq_printS]; exact OLED_printS_cursor font5x8 false str s h,
      OLED_printS_cursor font5x8 inverted str s h⟩
  · intro v hv
    rw [OLED_printD_eq_foldl]
    exact OLED_write_foldl_cursor font5x8 inverted _ s
      (fun c hc => plain_of_range c (OLED_printD_chars_plain v hv inverted c hc))
  · intro b hb
    rw [OLED_printB_eq_foldl]
    exact OLED_write_foldl_cursor font5x8 inverted _ s
      (fun c hc => plain_of_range c (OLED_printB_chars_plain b (by omega) inverted c hc))
  · intro w _
    rw [OLED_printW_eq_foldl]
    exact OLED_write_foldl_cursor font5x8 inverted _ s
      (fun c hc => plain_of_range c (OLED_printW_chars_plain w inverted c hc))
  · intro l _
    rw [OLED_printL_eq_foldl]
    exact OLED_write_foldl_cursor font5x8 inverted _ s
      (fun c hc => plain_of_range c (OLED_printL_chars_plain l inverted c hc))
  · intro str
    rfl

/-- C19 at the letter A, the string AB, and the values 907 and 0xA5, from a
state with the cursor at line 3, column 0, scroll 2. -/
theorem OLED_text_keeps_cursor_witness :
    ((65 : Nat) &&& 0x7F) ≥ 32 ∧
    cursor (OLED_write (fun _ _ => 0) 65 true { line := 3, column := 0, scroll := 2, bus := [] })
      = (3, 0, 2) ∧
    cursor (OLED_printD (fun _ _ => 0) 907 true { line := 3, column := 0, scroll := 2, bus := [] })
      = (3, 0, 2) :=
  ⟨by decide,
    (OLED_text_keeps_cursor (fun _ _ => 0) true
      { line := 3, column := 0, scroll := 2, bus := [] }).1 65 (by decide),
    (OLED_text_keeps_cursor (fun _ _ => 0) true
      { line := 3, column := 0, scroll := 2, bus := [] }).2.2.1 907 (by norm_num)⟩

/-- C20: control characters other than newline and carriage return are
dropped: for every input byte `c` whose low seven bits are below 32 and are
neither 10 nor 13, every flag and every state, `OLED_write(c, inverted)`
returns the state as it was, so the bus trace it emits is empty and `line`,
`column` and `scroll` are unchanged. -/
theorem OLED_write_dropped (font5x8 : Int → Nat → Nat) (c : Nat) (h : (c &&& 0x7F) < 32)
    (h10 : c &&& 0x7F ≠ 10) (h13 : c &&& 0x7F ≠ 13) (inverted : Bool) (s : OLED) :
    OLED_write font5x8 c inverted s = s ∧
    bus_since s (OLED_write font5x8 c inverted s) = [] ∧
    cursor (OLED_write font5x8 c inverted s) = cursor s := by
  rw [OLED_write_other_eq font5x8 c h h10 h13]
  simp [bus_since]

/-- C20 at the tab character, 0x09. -/
theorem OLED_write_dropped_witness :
    ((0x09 : Nat) &&& 0x7F) < 32 ∧ (0x09 : Nat) &&& 0x7F ≠ 10 ∧ (0x09 : Nat) &&& 0x7F ≠ 13 ∧
    OLED_write (fun _ _ => 0) 0x09 false { line := 1, column := 0, scroll := 0, bus := [] }
      = { line := 1, column := 0, scroll := 0, bus := [] } :=
  ⟨by decide, by decide, by decide,
    (OLED_write_dropped (fun _ _ => 0) 0x09 (by decide) (by decide) (by decide) false
      { line := 1, column := 0, scroll := 0, bus := [] }).1⟩

/-! ## Positioning -/

theorem or_page (y : Nat) (hy : y ≤ 15) : 0xB0 ||| y = 0xB0 + y := by
  interval_cases y <;> rfl

theorem or_column_high (q : Nat) (hq : q ≤ 15) : 0x10 ||| q = 0x10 + q := by
  interval_cases q <;> rfl

theorem and_low_nibble (x : Nat) : x &&& 0x0F = x % 16 := Nat.and_pow_two_sub_one_eq_mod x 4

theorem OLED_setpos_small_eq (x y : Nat) (hx : x ≤ 255) (hy : y ≤ 15) (s : OLED) :
    OLED_setpos x y s = { s with bus := s.bus ++
      (transaction 0x00 [0xB0 + y, x % 16, 0x10 + x / 16]) } := by
  have h4 : x >>> 4 = x / 16 := Nat.shiftRight_eq_div_pow x 4
  have e1 : (0xB0 + y) % 256 = 0xB0 + y := by omega
  have e2 : x % 16 % 256 = x % 16 := by omega
  have e3 : (0x10 + x / 16) % 256 = 0x10 + x / 16 := by omega
  rw [OLED_setpos_eq, or_page y hy, and_low_nibble, h4, or_column_high (x / 16) (by omega),
    e1, e2, e3]

/-- C12: for every `x` in 0 to 127 and `y` in 0 to 7, `OLED_setpos(x, y)`
leaves `line`, `column` and `scroll` alone and emits exactly one command
transaction with bytes 0x00, `0xB0 + y`, `x mod 16`, `0x10 + x div 16`: a page
command in 0xB0..0xB7, a low-column command in 0x00..0x0F and a high-column
command in 0x10..0x17. The address is recoverable, `y = byte1 - 0xB0` and
`x = 16 * (byte3 - 0x10) + byte2`, and distinct `(x, y)` give distinct byte
triples. -/
theorem OLED_setpos_bytes (x y : Nat) (hx : x ≤ 127) (hy : y ≤ 7) (s : OLED) :
    OLED_setpos x y s =
      { line := s.line, column := s.column, scroll := s.scroll,
        bus := s.bus ++ [I2C.start 0x78, I2C.write 0x00, I2C.write (0xB0 + y),
          I2C.write (x % 16), I2C.write (0x10 + x / 16), I2C.stop] } ∧
    (0xB0 ≤ 0xB0 + y ∧ 0xB0 + y ≤ 0xB7) ∧ x % 16 ≤ 0x0F ∧
    (0x10 ≤ 0x10 + x / 16 ∧ 0x10 + x / 16 ≤ 0x17) ∧
    y = (0xB0 + y) - 0xB0 ∧ x = 16 * ((0x10 + x / 16) - 0x10) + x % 16 ∧
    (∀ x1 y1 : Nat, x1 ≤ 127 → y1 ≤ 7 →
      (0xB0 + y, x % 16, 0x10 + x / 16) = (0xB0 + y1, x1 % 16, 0x10 + x1 / 16) →
      x = x1 ∧ y = y1) := by
  refine ⟨?_, ⟨by omega, by omega⟩, by omega, ⟨by omega, by omega⟩, by omega, by omega, ?_⟩
  · rw [OLED_setpos_small_eq x y (by omega) (by omega)]
    rfl
  · intro x1 y1 _ _ h
    simp only [Prod.mk.injEq] at h
    omega

/-- C12 at column 100 of page 5: the bytes are 0x00, 0xB5, 0x04, 0x16. -/
theorem OLED_setpos_bytes_witness :
    (100 : Nat) ≤ 127 ∧ (5 : Nat) ≤ 7 ∧
    OLED_setpos 100 5 OLED_reset =
      { line := 0, column := 0, scroll := 0,
        bus := [I2C.start 0x78, I2C.write 0x00, I2C.write 0xB5, I2C.write 0x04, I2C.write 0x16,
          I2C.stop] } :=
  ⟨by decide, by decide, (OLED_setpos_bytes 100 5 (by decide) (by decide) OLED_reset).1⟩

/-! ## Filling and clearing -/

theorem OLED_fill_eq (p : Nat) (s : OLED) :
    OLED_fill p s = { s with bus := s.bus ++
      (transaction 0x00 [0xB0, 0x00, 0x10] ++ transaction 0x40 (List.replicate 1024 (p % 256))) } := by
  have h : OLED_setpos 0 0 s = { s with bus := s.bus ++ transaction 0x00 [0xB0, 0x00, 0x10] } := by
    rw [OLED_setpos_eq]; rfl
  simp only [OLED_fill]
  rw [data_repeat_eq, h]
  simp only [List.append_assoc, Nat.reduceMul]

theorem bus_since_eq (s t : OLED) (x : List I2C) (h : t.bus = s.bus ++ x) : bus_since s t = x := by
  rw [bus_since, h, List.drop_left]

theorem ctrl_run_append (c : Controller) (a b : List I2C) :
    ctrl_run c (a ++ b) = ctrl_run (ctrl_run c a) b := by
  simp [ctrl_run, List.foldl_append]

theorem ctrl_run_cons (c : Controller) (e : I2C) (t : List I2C) :
    ctrl_run c (e :: t) = ctrl_run (ctrl_step c e) t := rfl

theorem ctrl_step_data (c : Controller) (b : Nat) (hph : c.phase = Phase.data) (hp : c.page < 8)
    (hc : c.col < 128) :
    (ctrl_step c (I2C.write b)).phase = Phase.data ∧
    (ctrl_step c (I2C.write b)).page < 8 ∧
    (ctrl_step c (I2C.write b)).col < 128 ∧
    (ctrl_step c (I2C.write b)).page * 128 + (ctrl_step c (I2C.write b)).col
      = (c.page * 128 + c.col + 1) % 1024 ∧
    (∀ a, (ctrl_step c (I2C.write b)).mem a = if a = c.page * 128 + c.col then b else c.mem a) := by
  simp only [ctrl_step, hph]
  refine ⟨trivial, ?_, ?_, ?_, fun _ => trivial⟩
  · show (if c.col + 1 = 128 then (c.page + 1) % 8 else c.page) < 8
    split_ifs <;> omega
  · show (if c.col + 1 = 128 then 0 else c.col + 1) < 128
    split_ifs <;> omega
  · show (if c.col + 1 = 128 then (c.page + 1) % 8 else c.page) * 128
        + (if c.col + 1 = 128 then 0 else c.col + 1) = (c.page * 128 + c.col + 1) % 1024
    split_ifs <;> omega

theorem ctrl_data_writes (b : Nat) : ∀ (n : Nat) (c : Controller), c.phase = Phase.data →
    c.page < 8 → c.col < 128 → c.page * 128 + c.col + n ≤ 1024 →
    (ctrl_run c (List.replicate n (I2C.write b))).phase = Phase.data ∧
    (∀ a, (ctrl_run c (List.replicate n (I2C.write b))).mem a
      = if c.page * 128 + c.col ≤ a ∧ a < c.page * 128 + c.col + n then b else c.mem a) := by
  intro n
  induction n with
  | zero =>
    intro c hph _ _ _
    refine ⟨hph, fun a => ?_⟩
    have : ¬ (c.page * 128 + c.col ≤ a ∧ a < c.page * 128 + c.col + 0) := by omega
    rw [if_neg this]
    rfl
  | succ n ih =>
    intro c hph hp hc hn
    obtain ⟨h1, h2, h3, h4, h5⟩ := ctrl_step_data c b hph hp hc
    rw [List.replicate_succ, ctrl_run_cons]
    have hL : (ctrl_step c (I2C.write b)).page * 128 + (ctrl_step c (I2C.write b)).col + n
        ≤ 1024 := by rw [h4]; omega
    obtain ⟨i1, i2⟩ := ih (ctrl_step c (I2C.write b)) h1 h2 h3 hL
    refine ⟨i1, fun a => ?_⟩
    rw [i2 a, h5 a, h4]
    by_cases hn0 : n = 0
    · subst hn0
      split_ifs <;> first | rfl | omega
    · have hm : (c.page * 128 + c.col + 1) % 1024 = c.page * 128 + c.col + 1 := by omega
      rw [hm]
      split_ifs <;> first | rfl | omega

theorem ctrl_setpos_origin (c : Controller) :
    (ctrl_run c (transaction 0x00 [0xB0, 0x00, 0x10])).page = 0 ∧
    (ctrl_run c (transaction 0x00 [0xB0, 0x00, 0x10])).col = 0 ∧
    (ctrl_run c (transaction 0x00 [0xB0, 0x00, 0x10])).mem = c.mem := by
  simp [ctrl_run, transaction, ctrl_step]

theorem ctrl_data_transaction (b n : Nat) (c : Controller) (hp : c.page = 0) (hc : c.col = 0)
    (hn : n ≤ 1024) :
    ∀ a, (ctrl_run c (transaction 0x40 (List.replicate n b))).mem a
      = if a < n then b else c.mem a := by
  intro a
  have key := ctrl_data_writes b n
    { phase := Phase.data, page := c.page, col := c.col, mem := c.mem } rfl
    (by simp only [hp]; omega) (by simp only [hc]; omega) (by simp only [hp, hc]; omega)
  have hrun : ctrl_run c (transaction 0x40 (List.replicate n b))
      = ctrl_step (ctrl_run { phase := Phase.data, page := c.page, col := c.col, mem := c.mem }
          (List.replicate n (I2C.write b))) I2C.stop := by
    simp only [transaction, List.map_replicate, ctrl_run, List.foldl_cons, List.foldl_append,
      List.foldl_nil]
    rfl
  rw [hrun]
  have hstop : ∀ d : Controller, (ctrl_step d I2C.stop).mem = d.mem := fun d => rfl
  rw [hstop, key.2 a]
  simp only [hp, hc]
  have : (0 * 128 + 0 ≤ a ∧ a < 0 * 128 + 0 + n) ↔ a < n := by omega
  simp only [this]

theorem ctrl_fill_memory (b : Nat) (c : Controller) :
    ∀ a, a < 1024 →
      (ctrl_run c (transaction 0x00 [0xB0, 0x00, 0x10]
        ++ transaction 0x40 (List.replicate 1024 b))).mem a = b := by
  intro a ha
  obtain ⟨h1, h2, _⟩ := ctrl_setpos_origin c
  rw [ctrl_run_append, ctrl_data_transaction b 1024 _ h1 h2 (le_refl _) a, if_pos ha]

/-- C11: `OLED_clear()` emits the position command for (0, 0) followed by a
single data transaction of exactly 1024 bytes 0x00, which is byte for byte the
bus trace of `OLED_fill(0x00)`; for every byte `p`, `OLED_fill(p)` emits the
same trace with every one of the 1024 payload bytes equal to `p`. In the
controller model where 1024 consecutive data bytes written from (0, 0) cover
all 8 pages of 128 columns, from any controller state, `OLED_fill(0xFF)`
leaves all 1024 bytes of memory 0xFF and `OLED_fill(0xFF)` followed by
`OLED_clear()` leaves all 1024 bytes 0x00. -/
theorem OLED_clear_fill (p : Nat) (hp : p ≤ 255) (s : OLED) (c : Controller) :
    OLED_clear s =
      { s with bus := s.bus ++
        ([I2C.start 0x78, I2C.write 0x00, I2C.write 0xB0, I2C.write 0x00, I2C.write 0x10,
            I2C.stop]
          ++ ([I2C.start 0x78, I2C.write 0x40] ++ List.replicate (128 * 8) (I2C.write 0x00)
              ++ [I2C.stop])) } ∧
    OLED_clear s = OLED_fill 0x00 s ∧
    OLED_fill p s =
      { s with bus := s.bus ++
        ([I2C.start 0x78, I2C.write 0x00, I2C.write 0xB0, I2C.write 0x00, I2C.write 0x10,
            I2C.stop]
          ++ ([I2C.start 0x78, I2C.write 0x40] ++ List.replicate (128 * 8) (I2C.write p)
              ++ [I2C.stop])) } ∧
    (∀ a, a < 1024 → (ctrl_run c (bus_since s (OLED_fill 0xFF s))).mem a = 0xFF) ∧
    (∀ a, a < 1024 →
      (ctrl_run c (bus_since s (OLED_clear (OLED_fill 0xFF s)))).mem a = 0x00) := by
  have hp256 : p % 256 = p := Nat.mod_eq_of_lt (by omega)
  have htr : ∀ b : Nat, transaction 0x00 [0xB0, 0x00, 0x10]
      ++ transaction 0x40 (List.replicate 1024 b)
      = [I2C.start 0x78, I2C.write 0x00, I2C.write 0xB0, I2C.write 0x00, I2C.write 0x10,
            I2C.stop]
          ++ ([I2C.start 0x78, I2C.write 0x40] ++ List.replicate (128 * 8) (I2C.write b)
              ++ [I2C.stop]) := by
    intro b
    simp only [transaction, List.map_replicate, List.map_cons, List.map_nil, List.cons_append,
      List.nil_append, List.append_assoc, Nat.reduceMul]
  refine ⟨?_, ?_, ?_, ?_, ?_⟩
  · rw [OLED_clear_eq, htr]
  · rw [OLED_clear_eq, OLED_fill_eq]
  · rw [OLED_fill_eq, hp256, htr]
  · intro a ha
    rw [bus_since_eq s (OLED_fill 0xFF s) _ (by rw [OLED_fill_eq])]
    exact ctrl_fill_memory _ c a ha
  · intro a ha
    rw [bus_since_eq s (OLED_clear (OLED_fill 0xFF s))
      ((transaction 0x00 [0xB0, 0x00, 0x10]
          ++ transaction 0x40 (List.replicate 1024 (0xFF % 256)))
        ++ (transaction 0x00 [0xB0, 0x00, 0x10] ++ transaction 0x40 (List.replicate 1024 0x00)))
      (by rw [OLED_clear_eq, OLED_fill_eq]; simp only [List.append_assoc]),
      ctrl_run_append]
    exact ctrl_fill_memory _ _ a ha

/-- C11 at the pattern 0xFF, from the state at program start and a controller
whose memory holds 0xAA everywhere: after the fill and the clear, the byte at
page 7, column 127 is 0x00. -/
theorem OLED_clear_fill_witness :
    (0xFF : Nat) ≤ 255 ∧
    (ctrl_run { phase := Phase.idle, page := 3, col := 17, mem := fun _ => 0xAA }
      (bus_since OLED_reset (OLED_clear (OLED_fill 0xFF OLED_reset)))).mem (7 * 128 + 127)
        = 0x00 :=
  ⟨by decide,
    (OLED_clear_fill 0xFF (by decide) OLED_reset
      { phase := Phase.idle, page := 3, col := 17, mem := fun _ => 0xAA }).2.2.2.2
      (7 * 128 + 127) (by decide)⟩

/-! ## The initialisation sequence -/

theorem ssd1306_init_opcodes :
    ssd1306_opcodes 0 ssd1306_init_sequence =
      [0xAE, 0xD5, 0xA8, 0xD3, 0x40, 0x8D, 0x20, 0xA1, 0xC8, 0xDA, 0x81, 0xD9, 0xDB, 0xA4, 0xA6,
        0x2E, 0xAF, 0x22, 0x21] := by
  decide

/-- C14, refuted as stated: the command opcodes of `ssd1306_init_sequence` do
not contain the listed commands in the listed order, not even when the
argument bytes are counted as well: the multiplex ratio command 0xA8 comes
after the clock divider command 0xD5, not before it; and display-on 0xAF is
not the last command of the sequence, which ends with the column range
command 0x21 and its arguments. -/
theorem init_order_not_as_listed :
    ¬ listed_init_order.Sublist (ssd1306_opcodes 0 ssd1306_init_sequence) ∧
    ¬ listed_init_order.Sublist ssd1306_init_sequence ∧
    (ssd1306_opcodes 0 ssd1306_init_sequence).getLast? = some 0x21 ∧
    (ssd1306_opcodes 0 ssd1306_init_sequence).getLast? ≠ some 0xAF := by
  rw [ssd1306_init_opcodes]
  decide

/-- C14, amended: the first bus transaction of `OLED_init()` is a single
command-mode transaction (start to 0x78, control byte 0x00, payload, stop)
whose payload is the fixed initialisation sequence, and the listed command
opcodes occur in that payload in this order: clock divider (0xD5), multiplex
ratio (0xA8), display offset (0xD3), start line (0x40), charge pump (0x8D),
addressing mode (0x20), segment remap (0xA1), scan direction (0xC8), COM pin
configuration (0xDA), contrast (0x81), pre-charge (0xD9), VCOMH level (0xDB),
normal display (0xA6), deactivate scroll (0x2E), display on (0xAF);
display-on is the last of these and is followed only by the page range (0x22)
and column range (0x21) commands. The sequence also starts with display off
(0xAE) and has the resume command 0xA4 before normal display. -/
theorem OLED_init_first_transaction (s : OLED) :
    (∃ rest, (OLED_init s).bus = s.bus ++
      ([I2C.start 0x78, I2C.write 0x00] ++ ssd1306_init_sequence.map I2C.write ++ [I2C.stop])
        ++ rest) ∧
    ssd1306_opcodes 0 ssd1306_init_sequence =
      [0xAE, 0xD5, 0xA8, 0xD3, 0x40, 0x8D, 0x20, 0xA1, 0xC8, 0xDA, 0x81, 0xD9, 0xDB, 0xA4, 0xA6,
        0x2E, 0xAF, 0x22, 0x21] ∧
    sent_init_order.Sublist (ssd1306_opcodes 0 ssd1306_init_sequence) ∧
    (∃ before, ssd1306_opcodes 0 ssd1306_init_sequence = before ++ [0xAF, 0x22, 0x21] ∧
      0xAF ∉ before) := by
  refine ⟨?_, ssd1306_init_opcodes, ?_, ?_⟩
  · rw [OLED_init_eq]
    exact ⟨(transaction 0x00 [0xB0, 0x00, 0x10] ++ transaction 0x40 (List.replicate 1024 0x00))
        ++ transaction 0x00 [0xB0, 0x00, 0x10], by
      simp only [transaction, List.append_assoc, List.cons_append, List.nil_append]⟩
  · rw [ssd1306_init_opcodes]
    decide
  · rw [ssd1306_init_opcodes]
    exact ⟨[0xAE, 0xD5, 0xA8, 0xD3, 0x40, 0x8D, 0x20, 0xA1, 0xC8, 0xDA, 0x81, 0xD9, 0xDB, 0xA4,
      0xA6, 0x2E], rfl, by decide⟩

/-! ## Bitmaps -/

theorem row_bytes_succ (bmp : Nat → Nat) (inverted : Bool) (z n : Nat) :
    row_bytes bmp inverted z (n + 1)
      = (if inverted then 255 - bmp_at bmp z else bmp_at bmp z)
          :: row_bytes bmp inverted (z + 1) n := by
  simp only [row_bytes, List.range_succ_eq_map, List.map_cons, List.map_map, Nat.add_zero]
  congr 1
  apply List.map_congr_left
  intro j _
  simp only [Function.comp, Nat.succ_eq_add_one]
  rw [show z + (j + 1) = z + 1 + j by omega]

theorem row_bytes_length (bmp : Nat → Nat) (inverted : Bool) (z w : Nat) :
    (row_bytes bmp inverted z w).length = w := by
  simp [row_bytes]

theorem OLED_DrawBitmap_row_eq (bmp : Nat → Nat) (inverted : Bool) (xlim : Nat)
    (hlim : xlim ≤ 255) :
    ∀ (n fuel x z : Nat) (s : OLED), n ≤ fuel → x + n = xlim →
      OLED_DrawBitmap_row bmp inverted xlim fuel x z s
        = some ({ s with bus := s.bus ++ (row_bytes bmp inverted z n).map I2C.write },
            z + n, xlim) := by
  intro n
  induction n with
  | zero =>
    intro fuel x z s _ hx
    have hnot : ¬ x < xlim := by omega
    have hx0 : x = xlim := by omega
    cases fuel <;> simp [OLED_DrawBitmap_row, hnot, row_bytes, hx0]
  | succ n ih =>
    intro fuel x z s hf hx
    obtain ⟨f, rfl⟩ : ∃ f, fuel = f + 1 := ⟨fuel - 1, by omega⟩
    have hlt : x < xlim := by omega
    have hx1 : (x + 1) % 256 = x + 1 := Nat.mod_eq_of_lt (by omega)
    have hb : bmp_at bmp z < 256 := Nat.mod_lt _ (by norm_num)
    have hw : I2C_write (if inverted then compl8 (bmp_at bmp z) else bmp_at bmp z) s
        = { s with bus := s.bus ++
            [I2C.write (if inverted then 255 - bmp_at bmp z else bmp_at bmp z)] } := by
      have e1 : bmp_at bmp z % 256 = bmp_at bmp z := Nat.mod_eq_of_lt hb
      have e2 : (255 - bmp_at bmp z) % 256 = 255 - bmp_at bmp z := Nat.mod_eq_of_lt (by omega)
      cases inverted <;> simp [I2C_write, compl8, e1, e2]
    simp only [OLED_DrawBitmap_row, if_pos hlt, hx1, hw]
    rw [ih f (x + 1) (z + 1) _ (by omega) (by omega), row_bytes_succ]
    simp only [List.map_cons, List.append_assoc, List.singleton_append]
    rw [show z + 1 + n = z + (n + 1) by omega]

theorem bitmap_groups_succ (bmp : Nat → Nat) (inverted : Bool) (x0 w y z n : Nat) :
    bitmap_groups bmp inverted x0 w y z (n + 1)
      = (setpos_trace x0 y ++ transaction 0x40 (row_bytes bmp inverted z w))
          :: bitmap_groups bmp inverted x0 w (y + 1) (z + w) n := by
  simp only [bitmap_groups, List.range_succ_eq_map, List.map_cons, List.map_map, Nat.add_zero,
    Nat.zero_mul]
  congr 1
  apply List.map_congr_left
  intro k _
  simp only [Function.comp, Nat.succ_eq_add_one]
  rw [show y + (k + 1) = y + 1 + k by omega, show z + (k + 1) * w = z + w + k * w by ring]

theorem OLED_DrawBitmap_rows_eq (bmp : Nat → Nat) (inverted : Bool) (x0 w ylim rowfuel : Nat)
    (hx : x0 + w ≤ 255) (hlim : ylim ≤ 255) (hrow : w ≤ rowfuel) :
    ∀ (n fuel y z : Nat) (s : OLED), n ≤ fuel → y + n = ylim →
      OLED_DrawBitmap_rows bmp inverted x0 w ylim rowfuel fuel y z s
        = some ({ s with bus := s.bus ++ (bitmap_groups bmp inverted x0 w y z n).flatten },
            z + n * w, ylim) := by
  intro n
  induction n with
  | zero =>
    intro fuel y z s _ hy
    have hnot : ¬ y < ylim := by omega
    have hy0 : y = ylim := by omega
    cases fuel <;> simp [OLED_DrawBitmap_rows, hnot, bitmap_groups, hy0]
  | succ n ih =>
    intro fuel y z s hf hy
    obtain ⟨f, rfl⟩ : ∃ f, fuel = f + 1 := ⟨fuel - 1, by omega⟩
    have hlt : y < ylim := by omega
    have hy1 : (y + 1) % 256 = y + 1 := Nat.mod_eq_of_lt (by omega)
    simp only [OLED_DrawBitmap_rows, if_pos hlt, hy1]
    rw [OLED_DrawBitmap_row_eq bmp inverted (x0 + w) hx w rowfuel x0 z _ hrow rfl]
    simp only
    rw [ih f (y + 1) (z + w) _ (by omega) (by omega), bitmap_groups_succ]
    simp only [OLED_setpos_eq, I2C_start, I2C_write, I2C_stop, setpos_trace, transaction,
      OLED_ADDR, OLED_DAT_MODE, List.flatten_cons, List.append_assoc, List.cons_append,
      List.nil_append, List.map_cons, List.map_nil, Nat.reduceMod]
    rw [show z + w + n * w = z + (n + 1) * w by ring]

theorem OLED_DrawBitmap_eq (fuel x0 y0 w h : Nat) (bmp : Nat → Nat) (inverted : Bool) (s : OLED)
    (hx : x0 + w ≤ 255) (hy : y0 + h / 8 ≤ 255) (hfw : w ≤ fuel) (hfh : h / 8 ≤ fuel) :
    OLED_DrawBitmap fuel x0 y0 w h bmp inverted s
      = some { s with bus := s.bus ++ (bitmap_groups bmp inverted x0 w y0 0 (h / 8)).flatten } := by
  rw [OLED_DrawBitmap,
    OLED_DrawBitmap_rows_eq bmp inverted x0 w (y0 + h / 8) fuel hx hy hfw (h / 8) fuel y0 0 s hfh
      rfl]
  rfl

theorem flatten_rows (f : Nat → Nat) (w : Nat) : ∀ n : Nat,
    ((List.range n).map (fun k => (List.range w).map (fun j => f (k * w + j)))).flatten
      = (List.range (w * n)).map f := by
  intro n
  induction n with
  | zero => simp
  | succ n ih =>
    rw [List.range_succ, List.map_append, List.flatten_append, ih, Nat.mul_succ, List.range_add,
      List.map_append, List.map_map]
    simp only [List.map_cons, List.map_nil, List.flatten_cons, List.flatten_nil, List.append_nil]
    congr 1
    apply List.map_congr_left
    intro j _
    simp only [Function.comp]
    rw [Nat.mul_comm n w]

theorem row_index_lt (w n k j : Nat) (hk : k < n) (hj : j < w) : k * w + j < w * n := by
  have h1 : (k + 1) * w ≤ n * w := Nat.mul_le_mul_right w hk
  have h2 : (k + 1) * w = k * w + w := by ring
  have h3 : n * w = w * n := Nat.mul_comm n w
  omega

theorem bitmap_groups_congr (bmp bmp2 : Nat → Nat) (inverted : Bool) (x0 w y n : Nat)
    (h : ∀ i, i < w * n → bmp2 i = bmp i) :
    bitmap_groups bmp2 inverted x0 w y 0 n = bitmap_groups bmp inverted x0 w y 0 n := by
  simp only [bitmap_groups, row_bytes]
  apply List.map_congr_left
  intro k hk
  congr 2
  apply List.map_congr_left
  intro j hj
  have hi : 0 + k * w + j < w * n := by
    have := row_index_lt w n k j (List.mem_range.mp hk) (List.mem_range.mp hj)
    omega
  simp only [bmp_at, h _ hi]

theorem bitmap_groups_explicit (bmp : Nat → Nat) (inverted : Bool) (x0 w y0 n : Nat)
    (hx : x0 ≤ 255) (hy : y0 + n ≤ 16) :
    bitmap_groups bmp inverted x0 w y0 0 n
      = (List.range n).map (fun k =>
          [I2C.start 0x78, I2C.write 0x00, I2C.write (0xB0 + (y0 + k)), I2C.write (x0 % 16),
            I2C.write (0x10 + x0 / 16), I2C.stop]
          ++ ([I2C.start 0x78, I2C.write 0x40]
            ++ (List.range w).map (fun j =>
                I2C.write (if inverted then 255 - bmp_at bmp (k * w + j)
                  else bmp_at bmp (k * w + j)))
            ++ [I2C.stop])) := by
  simp only [bitmap_groups]
  apply List.map_congr_left
  intro k hk
  have hk1 : y0 + k ≤ 15 := by have := List.mem_range.mp hk; omega
  have h4 : x0 >>> 4 = x0 / 16 := Nat.shiftRight_eq_div_pow x0 4
  have e1 : (0xB0 + (y0 + k)) % 256 = 0xB0 + (y0 + k) := by omega
  have e2 : x0 % 16 % 256 = x0 % 16 := by omega
  have e3 : (0x10 + x0 / 16) % 256 = 0x10 + x0 / 16 := by omega
  rw [setpos_trace, or_page _ hk1, and_low_nibble, h4, or_column_high (x0 / 16) (by omega),
    e1, e2, e3]
  simp only [transaction, row_bytes, List.map_map, List.map_cons, List.map_nil, Nat.zero_add,
    List.cons_append, List.nil_append, List.append_assoc]
  rfl

/-- C13: for every `x0`, `y0`, `w`, `h` with `x0 + w <= 128` and
`y0 + h/8 <= 8` (for `h` a multiple of 8 in particular), either flag and
every bitmap, `OLED_DrawBitmap` ends and emits exactly `h/8` groups, group `k`
being the position command for `(x0, y0 + k)` followed by one data
transaction whose payload is the `w` bytes `bmp[k*w .. k*w + w - 1]` in
order, each complemented to `255 - b` when `inverted` is set; the payloads
together are the source bytes `bmp[0 .. w*(h/8) - 1]`, each once and in
order; and no index outside that range is read: a bitmap that differs only
outside it gives the same result. -/
theorem OLED_DrawBitmap_groups (fuel x0 y0 w h : Nat) (bmp : Nat → Nat) (inverted : Bool)
    (s : OLED) (hx : x0 + w ≤ 128) (hy : y0 + h / 8 ≤ 8) (hf : 128 ≤ fuel) :
    OLED_DrawBitmap fuel x0 y0 w h bmp inverted s =
      some { s with bus := s.bus ++
        ((List.range (h / 8)).map (fun k =>
          [I2C.start 0x78, I2C.write 0x00, I2C.write (0xB0 + (y0 + k)), I2C.write (x0 % 16),
            I2C.write (0x10 + x0 / 16), I2C.stop]
          ++ ([I2C.start 0x78, I2C.write 0x40]
            ++ (List.range w).map (fun j =>
                I2C.write (if inverted then 255 - bmp_at bmp (k * w + j)
                  else bmp_at bmp (k * w + j)))
            ++ [I2C.stop]))).flatten } ∧
    ((List.range (h / 8)).map (fun k =>
        (List.range w).map (fun j =>
          if inverted then 255 - bmp_at bmp (k * w + j) else bmp_at bmp (k * w + j)))).flatten
      = (List.range (w * (h / 8))).map (fun i =>
          if inverted then 255 - bmp_at bmp i else bmp_at bmp i) ∧
    (∀ bmp2 : Nat → Nat, (∀ i, i < w * (h / 8) → bmp2 i = bmp i) →
      OLED_DrawBitmap fuel x0 y0 w h bmp2 inverted s
        = OLED_DrawBitmap fuel x0 y0 w h bmp inverted s) := by
  refine ⟨?_, ?_, ?_⟩
  · rw [OLED_DrawBitmap_eq fuel x0 y0 w h bmp inverted s (by omega) (by omega) (by omega)
      (by omega), bitmap_groups_explicit bmp inverted x0 w y0 (h / 8) (by omega) (by omega)]
  · exact flatten_rows (fun i => if inverted then 255 - bmp_at bmp i else bmp_at bmp i) w (h / 8)
  · intro bmp2 h2
    rw [OLED_DrawBitmap_eq fuel x0 y0 w h bmp inverted s (by omega) (by omega) (by omega)
        (by omega),
      OLED_DrawBitmap_eq fuel x0 y0 w h bmp2 inverted s (by omega) (by omega) (by omega)
        (by omega),
      bitmap_groups_congr bmp bmp2 inverted x0 w y0 (h / 8) h2]

/-- C13 for a bitmap 2 columns wide and 16 rows high, drawn inverted at
column 3 of page 1. -/
theorem OLED_DrawBitmap_groups_witness :
    3 + 2 ≤ 128 ∧ 1 + 16 / 8 ≤ 8 ∧ 128 ≤ 255 ∧
    (OLED_DrawBitmap 255 3 1 2 16 (fun z => 10 + z) true OLED_reset).map (fun t => t.bus) =
      some [I2C.start 0x78, I2C.write 0x00, I2C.write 0xB1, I2C.write 3, I2C.write 0x10, I2C.stop,
        I2C.start 0x78, I2C.write 0x40, I2C.write 245, I2C.write 244, I2C.stop,
        I2C.start 0x78, I2C.write 0x00, I2C.write 0xB2, I2C.write 3, I2C.write 0x10, I2C.stop,
        I2C.start 0x78, I2C.write 0x40, I2C.write 243, I2C.write 242, I2C.stop] :=
  ⟨by decide, by decide, by decide, by
    rw [(OLED_DrawBitmap_groups 255 3 1 2 16 (fun z => 10 + z) true OLED_reset (by decide)
      (by decide) (by decide)).1]
    decide⟩

theorem data_bytes_step_fold_append (st : Phase × Nat) (a b : List I2C) :
    (a ++ b).foldl data_bytes_step st = b.foldl data_bytes_step (a.foldl data_bytes_step st) :=
  List.foldl_append _ _ _ _

theorem data_bytes_payload (n : Nat) : ∀ (p : List Nat) (ph : Phase),
    (ph = Phase.data ∨ ph = Phase.command) →
    (p.map I2C.write).foldl data_bytes_step (ph, n)
      = (ph, if ph = Phase.data then n + p.length else n) := by
  intro p
  induction p generalizing n with
  | nil => intro ph _; simp
  | cons b p ih =>
    intro ph h
    rcases h with rfl | rfl
    · simp only [List.map_cons, List.foldl_cons, data_bytes_step]
      rw [ih (n + 1) Phase.data (Or.inl rfl)]
      simp only [if_true, List.length_cons]
      congr 1
      omega
    · simp only [List.map_cons, List.foldl_cons, data_bytes_step]
      rw [ih n Phase.command (Or.inr rfl)]
      simp

theorem data_bytes_transaction (st : Phase × Nat) (mode : Nat) (p : List Nat) :
    (transaction mode p).foldl data_bytes_step st
      = (Phase.idle, if mode = 0x40 then st.2 + p.length else st.2) := by
  simp only [transaction, List.foldl_cons, List.foldl_append, List.foldl_nil, data_bytes_step]
  by_cases hm : mode = 0x40
  · simp only [hm, if_true]
    rw [data_bytes_payload st.2 p Phase.data (Or.inl rfl)]
    simp [data_bytes_step]
  · simp only [hm, if_false]
    rw [data_bytes_payload st.2 p Phase.command (Or.inr rfl)]
    simp [data_bytes_step]

theorem data_bytes_groups (bmp : Nat → Nat) (inverted : Bool) (x0 w : Nat) :
    ∀ (n y z : Nat) (st : Phase × Nat),
      (bitmap_groups bmp inverted x0 w y z n).flatten.foldl data_bytes_step st
        = if n = 0 then st else (Phase.idle, st.2 + n * w) := by
  intro n
  induction n with
  | zero => intro y z st; simp [bitmap_groups]
  | succ n ih =>
    intro y z st
    rw [bitmap_groups_succ, List.flatten_cons, List.foldl_append, List.foldl_append, setpos_trace,
      data_bytes_transaction, data_bytes_transaction, ih]
    simp only [if_true, row_bytes_length, Nat.succ_ne_zero, if_false]
    have h0 : ¬ ((0 : Nat) = 0x40) := by decide
    simp only [if_neg h0]
    by_cases hn : n = 0
    · subst hn; simp
    · simp only [if_neg hn, Nat.add_eq_zero, one_ne_zero, and_false, if_false]
      congr 1
      ring

theorem OLED_DrawBitmap_row_diverges (bmp : Nat → Nat) (inverted : Bool) (xlim : Nat)
    (hlim : 256 ≤ xlim) :
    ∀ (fuel x z : Nat) (s : OLED), x < 256 →
      OLED_DrawBitmap_row bmp inverted xlim fuel x z s = none := by
  intro fuel
  induction fuel with
  | zero =>
    intro x z s hx
    have : x < xlim := by omega
    simp [OLED_DrawBitmap_row, this]
  | succ f ih =>
    intro x z s hx
    have : x < xlim := by omega
    simp only [OLED_DrawBitmap_row, if_pos this]
    exact ih _ _ _ (Nat.mod_lt _ (by norm_num))

theorem OLED_DrawBitmap_rows_diverges (bmp : Nat → Nat) (inverted : Bool)
    (x0 w ylim rowfuel : Nat) (hlim : 256 ≤ ylim) :
    ∀ (fuel y z : Nat) (s : OLED), y < 256 →
      OLED_DrawBitmap_rows bmp inverted x0 w ylim rowfuel fuel y z s = none := by
  intro fuel
  induction fuel with
  | zero =>
    intro y z s hy
    have : y < ylim := by omega
    simp [OLED_DrawBitmap_rows, this]
  | succ f ih =>
    intro y z s hy
    have : y < ylim := by omega
    simp only [OLED_DrawBitmap_rows, if_pos this]
    split
    · rfl
    · exact ih _ _ _ (Nat.mod_lt _ (by norm_num))

theorem OLED_DrawBitmap_rows_row_diverges (bmp : Nat → Nat) (inverted : Bool)
    (x0 w ylim rowfuel : Nat) (hx0 : x0 < 256) (hlim : 256 ≤ x0 + w) :
    ∀ (fuel y z : Nat) (s : OLED), y < ylim →
      OLED_DrawBitmap_rows bmp inverted x0 w ylim rowfuel fuel y z s = none := by
  intro fuel y z s hy
  cases fuel with
  | zero => simp [OLED_DrawBitmap_rows, hy]
  | succ f =>
    simp only [OLED_DrawBitmap_rows, if_pos hy]
    rw [OLED_DrawBitmap_row_diverges bmp inverted (x0 + w) hlim rowfuel x0 z _ hx0]

/-- C18: under the precondition `x0 + w <= 255` and `y0 + h/8 <= 255` (sums
of unbounded integers), `OLED_DrawBitmap` terminates for every bitmap and
either flag (any fuel of at least 255 iterations per loop is enough), the
cursor is unchanged, the trace holds exactly `w * (h/8)` data bytes, and the
8-bit loop counters do not wrap: the outer loop ends with `y = y0 + h/8`
after reading `w * (h/8)` source bytes, and every inner loop ends with
`x = x0 + w`. The bound is needed: for 8-bit arguments, with
`y0 + h/8 >= 256`, or with `x0 + w >= 256` and at least one row, the loops do
not end whatever the fuel. -/
theorem OLED_DrawBitmap_terminates (fuel x0 y0 w h : Nat) (bmp : Nat → Nat) (inverted : Bool)
    (s : OLED) (hx : x0 + w ≤ 255) (hy : y0 + h / 8 ≤ 255) (hf : 255 ≤ fuel) :
    (∃ t, OLED_DrawBitmap fuel x0 y0 w h bmp inverted s = some t ∧ cursor t = cursor s ∧
      data_bytes (bus_since s t) = w * (h / 8)) ∧
    (∃ t, OLED_DrawBitmap_rows bmp inverted x0 w (y0 + h / 8) fuel fuel y0 0 s
      = some (t, w * (h / 8), y0 + h / 8)) ∧
    (∀ (z : Nat) (s1 : OLED), ∃ t,
      OLED_DrawBitmap_row bmp inverted (x0 + w) fuel x0 z s1 = some (t, z + w, x0 + w)) ∧
    (∀ (n a b c d : Nat), a < 256 → b < 256 → 256 ≤ b + d / 8 →
      OLED_DrawBitmap n a b c d bmp inverted s = none) ∧
    (∀ (n a b c d : Nat), a < 256 → 256 ≤ a + c → 1 ≤ d / 8 →
      OLED_DrawBitmap n a b c d bmp inverted s = none) := by
  refine ⟨?_, ?_, ?_, ?_, ?_⟩
  · refine ⟨_, OLED_DrawBitmap_eq fuel x0 y0 w h bmp inverted s hx hy (by omega) (by omega),
      rfl, ?_⟩
    rw [bus_since_eq s _ (bitmap_groups bmp inverted x0 w y0 0 (h / 8)).flatten rfl, data_bytes,
      data_bytes_groups]
    by_cases hn : h / 8 = 0
    · simp [hn]
    · simp only [if_neg hn, Nat.zero_add]
      exact Nat.mul_comm _ _
  · refine ⟨{ s with bus := s.bus ++ (bitmap_groups bmp inverted x0 w y0 0 (h / 8)).flatten },
      ?_⟩
    rw [OLED_DrawBitmap_rows_eq bmp inverted x0 w (y0 + h / 8) fuel hx hy (by omega) (h / 8) fuel
      y0 0 s (by omega) rfl, Nat.zero_add, Nat.mul_comm]
  · intro z s1
    exact ⟨_, OLED_DrawBitmap_row_eq bmp inverted (x0 + w) hx w fuel x0 z s1 (by omega) rfl⟩
  · intro n a b c d _ hb hlim
    rw [OLED_DrawBitmap, OLED_DrawBitmap_rows_diverges bmp inverted a c (b + d / 8) n hlim n b 0 s
      hb]
    rfl
  · intro n a b c d ha hlim hd
    rw [OLED_DrawBitmap, OLED_DrawBitmap_rows_row_diverges bmp inverted a c (b + d / 8) n ha hlim
      n b 0 s (by omega)]
    rfl

/-- C18 for a bitmap 255 columns wide and 8 rows high at the origin: the
drawing ends with 255 data bytes, while one column further right it does not
end. -/
theorem OLED_DrawBitmap_terminates_witness :
    0 + 255 ≤ 255 ∧ 0 + 8 / 8 ≤ 255 ∧ 255 ≤ 255 ∧
    (∃ t, OLED_DrawBitmap 255 0 0 255 8 (fun z => z) false OLED_reset = some t ∧
      cursor t = cursor OLED_reset ∧ data_bytes (bus_since OLED_reset t) = 255 * (8 / 8)) ∧
    OLED_DrawBitmap 255 1 0 255 8 (fun z => z) false OLED_reset = none :=
  ⟨by decide, by decide, by decide,
    (OLED_DrawBitmap_terminates 255 0 0 255 8 (fun z => z) false OLED_reset (by decide)
      (by decide) (by decide)).1,
    (OLED_DrawBitmap_terminates 255 0 0 255 8 (fun z => z) false OLED_reset (by decide)
      (by decide) (by decide)).2.2.2.2 255 1 0 255 8 (by decide) (by decide) (by decide)⟩

/-! ## Glyph table indices -/

theorem mask_row_range (c : Nat) (h : (c &&& 0x7F) ≥ 32) :
    (0 : Int) ≤ ((c &&& 0x7F : Nat) : Int) - 32 ∧ ((c &&& 0x7F : Nat) : Int) - 32 ≤ 95 := by
  rw [and_mask7] at h ⊢
  omega

theorem OLED_plotChar_loop_congr (f g : Int → Nat → Nat) (c : Nat) (inverted : Bool)
    (h : ∀ i, i ≤ 4 → f ((c : Int) - 32) i = g ((c : Int) - 32) i) :
    ∀ (n i : Nat) (s : OLED), i + n ≤ 5 →
      OLED_plotChar_loop f c inverted n i s = OLED_plotChar_loop g c inverted n i s := by
  intro n
  induction n with
  | zero => intro i s _; rfl
  | succ n ih =>
    intro i s hi
    simp only [OLED_plotChar_loop, font5x8_at, h i (by omega)]
    exact ih _ _ (by omega)

theorem OLED_write_congr (f g : Int → Nat → Nat)
    (h : ∀ (r : Int) (i : Nat), 0 ≤ r → r ≤ 95 → i ≤ 4 → f r i = g r i) :
    OLED_write f = OLED_write g := by
  funext c inverted s
  by_cases hc : (c &&& 0x7F) ≥ 32
  · obtain ⟨h0, h95⟩ := mask_row_range c hc
    rw [OLED_write_printable_eq f c hc, OLED_write_printable_eq g c hc]
    simp only [OLED_plotChar]
    rw [OLED_plotChar_loop_congr f g (c &&& 0x7F) inverted (fun i hi => h _ i h0 h95 hi) 5 0 _
      (le_refl 5)]
  · simp only [OLED_write, if_neg hc]

theorem OLED_printS_congr (f g : Int → Nat → Nat) (h : OLED_write f = OLED_write g) :
    OLED_printS f = OLED_printS g := by
  funext str
  induction str with
  | nil => funext inverted s; rfl
  | cons c str ih =>
    funext inverted s
    simp only [OLED_printS, h, ih]

theorem OLED_print_congr (f g : Int → Nat → Nat) (h : OLED_write f = OLED_write g) :
    OLED_print f = OLED_print g := by
  funext str s
  rw [OLED_print_eq_printS, OLED_print_eq_printS, OLED_printS_congr f g h]

theorem font5x8_checked_some (table : List (List Nat)) (hrows : table.length = 96)
    (hcols : ∀ glyph ∈ table, glyph.length = 5) (r : Int) (i : Nat) (h0 : 0 ≤ r) (h95 : r ≤ 95)
    (hi : i ≤ 4) :
    ∃ v, font5x8_checked table r i = some v := by
  have hr : r.toNat < table.length := by omega
  have hneg : ¬ r < 0 := by omega
  have hg : (table[r.toNat]).length = 5 := hcols _ (List.getElem_mem _)
  have hi5 : i < (table[r.toNat]).length := by omega
  refine ⟨(table[r.toNat])[i], ?_⟩
  simp only [font5x8_checked, if_neg hneg, List.getElem?_eq_getElem hr,
    List.getElem?_eq_getElem hi5]

theorem OLED_plotChar_loop_checked_eq (table : List (List Nat)) (hrows : table.length = 96)
    (hcols : ∀ glyph ∈ table, glyph.length = 5) (c : Nat) (inverted : Bool)
    (h0 : (0 : Int) ≤ (c : Int) - 32) (h95 : (c : Int) - 32 ≤ 95) :
    ∀ (n i : Nat) (s : OLED), i + n ≤ 5 →
      OLED_plotChar_loop_checked table c inverted n i s
        = some (OLED_plotChar_loop (font5x8_of table) c inverted n i s) := by
  intro n
  induction n with
  | zero => intro i s _; rfl
  | succ n ih =>
    intro i s hi
    obtain ⟨v, hv⟩ := font5x8_checked_some table hrows hcols _ i h0 h95 (by omega)
    simp only [OLED_plotChar_loop_checked, OLED_plotChar_loop, font5x8_at, font5x8_of, hv,
      Option.getD_some]
    exact ih _ _ (by omega)

theorem OLED_write_checked_eq (table : List (List Nat)) (hrows : table.length = 96)
    (hcols : ∀ glyph ∈ table, glyph.length = 5) (c : Nat) (inverted : Bool) (s : OLED) :
    OLED_write_checked table c inverted s
      = some (OLED_write (font5x8_of table) c inverted s) := by
  by_cases hc : (c &&& 0x7F) ≥ 32
  · obtain ⟨h0, h95⟩ := mask_row_range c hc
    simp only [OLED_write_checked, OLED_write, if_pos hc, OLED_plotChar_checked, OLED_plotChar]
    rw [OLED_plotChar_loop_checked_eq table hrows hcols (c &&& 0x7F) inverted h0 h95 5 0 _
      (le_refl 5)]
  · simp only [OLED_write_checked, OLED_write, if_neg hc]
    split_ifs <;> rfl

/-- C17: text and number output never indexes the glyph table out of range.
For every input byte `c`, whenever `OLED_write` reaches `OLED_plotChar` the
row index `(c & 0x7F) - 32` is between 0 and 95 and the column indices are 0
to 4: two glyph tables that agree on rows 0..95 and columns 0..4 give the
same `OLED_write`, hence the same `OLED_print`, `OLED_printS`,
`OLED_println`, `OLED_printD`, `OLED_printB`, `OLED_printW` and `OLED_printL`
for every string and value; and with a bounds-checked table of 96 rows of 5
bytes the error branch of the lookup is never taken: the checked
`OLED_write` succeeds with the state of the unchecked one. -/
theorem glyph_index_in_range (f g : Int → Nat → Nat) (table : List (List Nat))
    (hfg : ∀ (r : Int) (i : Nat), 0 ≤ r → r ≤ 95 → i ≤ 4 → f r i = g r i)
    (hrows : table.length = 96) (hcols : ∀ glyph ∈ table, glyph.length = 5) :
    (∀ (c : Nat) (inverted : Bool) (s : OLED), (c &&& 0x7F) ≥ 32 →
      OLED_write f c inverted s = OLED_plotChar f (c &&& 0x7F) inverted s ∧
      (0 : Int) ≤ ((c &&& 0x7F : Nat) : Int) - 32 ∧ ((c &&& 0x7F : Nat) : Int) - 32 ≤ 95) ∧
    (OLED_write f = OLED_write g ∧ OLED_print f = OLED_print g ∧
      OLED_printS f = OLED_printS g ∧ OLED_println f = OLED_println g ∧
      OLED_printD f = OLED_printD g ∧ OLED_printB f = OLED_printB g ∧
      OLED_printW f = OLED_printW g ∧ OLED_printL f = OLED_printL g) ∧
    (∀ (c : Nat) (inverted : Bool) (s : OLED),
      (∀ i, i ≤ 4 → (c &&& 0x7F) ≥ 32 →
        (font5x8_checked table (((c &&& 0x7F : Nat) : Int) - 32) i).isSome) ∧
      OLED_write_checked table c inverted s
        = some (OLED_write (font5x8_of table) c inverted s)) := by
  have hw : OLED_write f = OLED_write g := OLED_write_congr f g hfg
  have hS : OLED_printS f = OLED_printS g := OLED_printS_congr f g hw
  refine ⟨?_, ⟨hw, OLED_print_congr f g hw, hS, ?_, ?_, ?_, ?_, ?_⟩, ?_⟩
  · intro c inverted s hc
    exact ⟨OLED_write_printable_eq f c hc inverted s, mask_row_range c hc⟩
  · funext str inverted s
    simp only [OLED_println, hw, hS]
  · funext v inverted s
    simp only [OLED_printD, hw]
  · funext v inverted s
    simp only [OLED_printB, hw]
  · funext v inverted s
    simp only [OLED_printW, hw]
  · funext v inverted s
    simp only [OLED_printL, hw]
  · intro c inverted s
    refine ⟨fun i hi hc => ?_, OLED_write_checked_eq table hrows hcols c inverted s⟩
    obtain ⟨h0, h95⟩ := mask_row_range c hc
    obtain ⟨v, hv⟩ := font5x8_checked_some table hrows hcols _ i h0 h95 hi
    rw [hv]
    rfl

/-- C17 for a table of 96 equal glyphs, at the last printable character 0x7F
(row 95) and its last column. -/
theorem glyph_index_in_range_witness :
    (List.replicate 96 [1, 2, 3, 4, 5]).length = 96 ∧
    (font5x8_checked (List.replicate 96 [1, 2, 3, 4, 5]) ((((0x7F : Nat) &&& 0x7F : Nat) : Int) - 32)
      4).isSome :=
  ⟨by decide,
    ((glyph_index_in_range (fun _ _ => 0) (fun _ _ => 0) (List.replicate 96 [1, 2, 3, 4, 5])
      (fun _ _ _ _ _ => rfl) (by decide)
      (fun glyph hg => by rw [List.eq_of_mem_replicate hg]; rfl)).2.2 0x7F false OLED_reset).1 4
      (by decide) (by decide)⟩

/-! ## Framing of the bus trace -/

theorem Framed_nil : Framed [] := ⟨[], by simp, by simp⟩

theorem Framed_transaction (mode : Nat) (payload : List Nat) (h : mode = 0x00 ∨ mode = 0x40) :
    Framed (transaction mode payload) :=
  ⟨[(mode, payload)], by simpa using h, by simp⟩

theorem Framed_append (a b : List I2C) (ha : Framed a) (hb : Framed b) : Framed (a ++ b) := by
  obtain ⟨ta, ha1, ha2⟩ := ha
  obtain ⟨tb, hb1, hb2⟩ := hb
  refine ⟨ta ++ tb, ?_, ?_⟩
  · intro tx htx
    rcases List.mem_append.mp htx with h | h
    · exact ha1 tx h
    · exact hb1 tx h
  · rw [ha2, hb2, List.map_append, List.flatten_append]

theorem bus_check_append (a b : List I2C) : ∀ (ph ph1 : Phase),
    bus_check ph a = some ph1 → bus_check ph (a ++ b) = bus_check ph1 b := by
  induction a with
  | nil => intro ph ph1 h; simp only [bus_check, Option.some.injEq] at h; rw [h]; rfl
  | cons e a ih =>
    intro ph ph1 h
    simp only [bus_check, List.cons_append] at h ⊢
    cases hs : bus_step ph e with
    | none => rw [hs] at h; exact absurd h (by simp)
    | some ph2 =>
      rw [hs] at h
      exact ih ph2 ph1 h

theorem bus_check_payload (ph : Phase) (h : ph = Phase.command ∨ ph = Phase.data) :
    ∀ p : List Nat, bus_check ph (p.map I2C.write ++ [I2C.stop]) = some Phase.idle := by
  intro p
  induction p with
  | nil => rcases h with rfl | rfl <;> rfl
  | cons b p ih =>
    rcases h with rfl | rfl
    · simpa [bus_check, bus_step] using ih
    · simpa [bus_check, bus_step] using ih

theorem bus_check_transaction (mode : Nat) (payload : List Nat) (h : mode = 0x00 ∨ mode = 0x40) :
    bus_check Phase.idle (transaction mode payload) = some Phase.idle := by
  rcases h with rfl | rfl
  · simp only [transaction, bus_check, bus_step, if_true]
    exact bus_check_payload Phase.command (Or.inl rfl) payload
  · have h0 : ¬ ((0x40 : Nat) = 0x00) := by decide
    simp only [transaction, bus_check, bus_step, if_true, if_neg h0]
    exact bus_check_payload Phase.data (Or.inr rfl) payload

theorem Framed_bus_check (t : List I2C) (h : Framed t) :
    bus_check Phase.idle t = some Phase.idle := by
  obtain ⟨txs, h1, h2⟩ := h
  subst h2
  induction txs with
  | nil => rfl
  | cons tx txs ih =>
    rw [List.map_cons, List.flatten_cons,
      bus_check_append _ _ Phase.idle Phase.idle
        (bus_check_transaction tx.1 tx.2 (h1 tx (List.mem_cons_self _ _)))]
    exact ih (fun t ht => h1 t (List.mem_cons_of_mem _ ht))

theorem extends_refl (s : OLED) : ∃ x, s.bus = s.bus ++ x ∧ Framed x :=
  ⟨[], by simp, Framed_nil⟩

theorem extends_trans (s t u : OLED) (h1 : ∃ x, t.bus = s.bus ++ x ∧ Framed x)
    (h2 : ∃ x, u.bus = t.bus ++ x ∧ Framed x) : ∃ x, u.bus = s.bus ++ x ∧ Framed x := by
  obtain ⟨x, hx, fx⟩ := h1
  obtain ⟨y, hy, fy⟩ := h2
  exact ⟨x ++ y, by rw [hy, hx, List.append_assoc], Framed_append x y fx fy⟩

theorem OLED_setline_extends (ln : Nat) (s : OLED) :
    ∃ x, (OLED_setline ln s).bus = s.bus ++ x ∧ Framed x :=
  ⟨_, by rw [OLED_setline_eq], Framed_transaction _ _ (Or.inl rfl)⟩

theorem OLED_setpos_extends (x y : Nat) (s : OLED) :
    ∃ t, (OLED_setpos x y s).bus = s.bus ++ t ∧ Framed t :=
  ⟨_, by rw [OLED_setpos_eq], Framed_transaction _ _ (Or.inl rfl)⟩

theorem OLED_write_extends (font5x8 : Int → Nat → Nat) (c : Nat) (inverted : Bool) (s : OLED) :
    ∃ x, (OLED_write font5x8 c inverted s).bus = s.bus ++ x ∧ Framed x := by
  simp only [OLED_write]
  split_ifs
  · exact ⟨_, by rw [OLED_plotChar_eq], Framed_transaction _ _ (Or.inr rfl)⟩
  · exact OLED_setline_extends _ _
  · exact OLED_setline_extends _ _
  · exact OLED_setline_extends _ _
  · exact extends_refl s

theorem OLED_write_foldl_extends (font5x8 : Int → Nat → Nat) (inverted : Bool) :
    ∀ (cs : List Nat) (s : OLED),
      ∃ x, (cs.foldl (fun s c => OLED_write font5x8 c inverted s) s).bus = s.bus ++ x ∧
        Framed x := by
  intro cs
  induction cs with
  | nil => intro s; exact extends_refl s
  | cons c cs ih =>
    intro s
    rw [List.foldl_cons]
    exact extends_trans s _ _ (OLED_write_extends font5x8 c inverted s) (ih _)

theorem OLED_printS_extends (font5x8 : Int → Nat → Nat) (inverted : Bool) :
    ∀ (str : List Nat) (s : OLED),
      ∃ x, (OLED_printS font5x8 str inverted s).bus = s.bus ++ x ∧ Framed x := by
  intro str
  induction str with
  | nil => intro s; exact extends_refl s
  | cons c str ih =>
    intro s
    simp only [OLED_printS]
    split_ifs
    · exact extends_refl s
    · exact extends_trans s _ _ (OLED_write_extends font5x8 c inverted s) (ih _)

theorem OLED_scrollDisplay_raw_eq (s : OLED) :
    OLED_scrollDisplay s =
      { s with scroll := (s.scroll + 1) &&& 0x07, bus := s.bus ++
        ((transaction 0x00 [(0xB0 + s.scroll) % 256, 0x00, 0x10]
            ++ transaction 0x40 (List.replicate 128 0x00))
          ++ transaction 0x00 [0xD3, (((s.scroll + 1) &&& 0x07) <<< 3) % 256]) } := by
  simp only [OLED_scrollDisplay, OLED_clearline_eq]
  generalize List.replicate 128 0x00 = zs
  simp [I2C_start, I2C_write, I2C_stop, transaction, OLED_ADDR, OLED_CMD_MODE, OLED_OFFSET]

theorem OLED_DrawBitmap_row_frame (bmp : Nat → Nat) (inverted : Bool) (xlim : Nat) :
    ∀ (fuel x z : Nat) (s : OLED) (r : OLED × Nat × Nat),
      OLED_DrawBitmap_row bmp inverted xlim fuel x z s = some r →
      ∃ p : List Nat, r.1 = { s with bus := s.bus ++ p.map I2C.write } := by
  intro fuel
  induction fuel with
  | zero =>
    intro x z s r h
    simp only [OLED_DrawBitmap_row] at h
    split_ifs at h
    simp only [Option.some.injEq] at h
    exact ⟨[], by rw [← h]; simp⟩
  | succ f ih =>
    intro x z s r h
    rw [OLED_DrawBitmap_row] at h
    by_cases hlt : x < xlim
    · rw [if_pos hlt] at h
      obtain ⟨p, hp⟩ := ih _ _ _ r h
      exact ⟨((if inverted then compl8 (bmp_at bmp z) else bmp_at bmp z) % 256) :: p, by
        rw [hp]; simp [I2C_write]⟩
    · rw [if_neg hlt] at h
      simp only [Option.some.injEq] at h
      exact ⟨[], by rw [← h]; simp⟩

theorem OLED_DrawBitmap_rows_frame (bmp : Nat → Nat) (inverted : Bool) (x0 w ylim rowfuel : Nat) :
    ∀ (fuel y z : Nat) (s : OLED) (r : OLED × Nat × Nat),
      OLED_DrawBitmap_rows bmp inverted x0 w ylim rowfuel fuel y z s = some r →
      cursor r.1 = cursor s ∧ ∃ x, r.1.bus = s.bus ++ x ∧ Framed x := by
  intro fuel
  induction fuel with
  | zero =>
    intro y z s r h
    simp only [OLED_DrawBitmap_rows] at h
    split_ifs at h
    simp only [Option.some.injEq] at h
    rw [← h]
    exact ⟨rfl, extends_refl s⟩
  | succ f ih =>
    intro y z s r h
    simp only [OLED_DrawBitmap_rows] at h
    split_ifs at h with hlt
    · cases hrow : OLED_DrawBitmap_row bmp inverted (x0 + w) rowfuel x0 z
          (I2C_write OLED_DAT_MODE (I2C_start OLED_ADDR (OLED_setpos x0 y s))) with
      | none => rw [hrow] at h; exact absurd h (by simp)
      | some q =>
        rw [hrow] at h
        obtain ⟨p, hp⟩ := OLED_DrawBitmap_row_frame bmp inverted (x0 + w) rowfuel x0 z _ q hrow
        obtain ⟨hc, hx⟩ := ih _ _ _ r h
        have hq : I2C_stop q.1 = { s with bus := s.bus ++
            (setpos_trace x0 y ++ transaction 0x40 p) } := by
          rw [hp, OLED_setpos_eq]
          simp [I2C_start, I2C_write, I2C_stop, setpos_trace, transaction, OLED_ADDR,
            OLED_DAT_MODE]
        rw [hq] at hc hx
        refine ⟨hc, extends_trans s _ r.1 ⟨_, rfl, ?_⟩ hx⟩
        exact Framed_append _ _ (Framed_transaction _ _ (Or.inl rfl))
          (Framed_transaction _ _ (Or.inr rfl))
    · simp only [Option.some.injEq] at h
      rw [← h]
      exact ⟨rfl, extends_refl s⟩

theorem OLED_DrawBitmap_frame (fuel x0 y0 w h : Nat) (bmp : Nat → Nat) (inverted : Bool)
    (s t : OLED) (ht : OLED_DrawBitmap fuel x0 y0 w h bmp inverted s = some t) :
    cursor t = cursor s ∧ ∃ x, t.bus = s.bus ++ x ∧ Framed x := by
  simp only [OLED_DrawBitmap, Option.map_eq_some'] at ht
  obtain ⟨r, hr, rfl⟩ := ht
  exact OLED_DrawBitmap_rows_frame bmp inverted x0 w (y0 + h / 8) fuel fuel y0 0 s r hr

theorem run_op_extends (font5x8 : Int → Nat → Nat) (op : Op) (s t : OLED)
    (h : run_op font5x8 op s = some t) : ∃ x, t.bus = s.bus ++ x ∧ Framed x := by
  cases op with
  | drawBitmap fuel x0 y0 w hh bmp inverted =>
    exact (OLED_DrawBitmap_frame fuel x0 y0 w hh bmp inverted s t h).2
  | init =>
    simp only [run_op, Option.some.injEq] at h
    subst h
    refine ⟨_, by rw [OLED_init_eq], ?_⟩
    exact Framed_append _ _ (Framed_append _ _ (Framed_transaction _ _ (Or.inl rfl))
      (Framed_append _ _ (Framed_transaction _ _ (Or.inl rfl))
        (Framed_transaction _ _ (Or.inr rfl)))) (Framed_transaction _ _ (Or.inl rfl))
  | clear =>
    simp only [run_op, Option.some.injEq] at h
    subst h
    exact ⟨_, by rw [OLED_clear_eq], Framed_append _ _ (Framed_transaction _ _ (Or.inl rfl))
      (Framed_transaction _ _ (Or.inr rfl))⟩
  | fill p =>
    simp only [run_op, Option.some.injEq] at h
    subst h
    exact ⟨_, by rw [OLED_fill_eq], Framed_append _ _ (Framed_transaction _ _ (Or.inl rfl))
      (Framed_transaction _ _ (Or.inr rfl))⟩
  | setpos x y =>
    simp only [run_op, Option.some.injEq] at h
    subst h
    exact OLED_setpos_extends x y s
  | scrollDisplay =>
    simp only [run_op, Option.some.injEq] at h
    subst h
    exact ⟨_, by rw [OLED_scrollDisplay_raw_eq], Framed_append _ _
      (Framed_append _ _ (Framed_transaction _ _ (Or.inl rfl))
        (Framed_transaction _ _ (Or.inr rfl))) (Framed_transaction _ _ (Or.inl rfl))⟩
  | write c inverted =>
    simp only [run_op, Option.some.injEq] at h
    subst h
    exact OLED_write_extends font5x8 c inverted s
  | print str =>
    simp only [run_op, Option.some.injEq] at h
    subst h
    rw [OLED_print_eq_printS]
    exact OLED_printS_extends font5x8 false str s
  | printS str inverted =>
    simp only [run_op, Option.some.injEq] at h
    subst h
    exact OLED_printS_extends font5x8 inverted str s
  | println str inverted =>
    simp only [run_op, Option.some.injEq] at h
    subst h
    exact extends_trans s _ _ (OLED_printS_extends font5x8 inverted str s)
      (OLED_write_extends font5x8 10 inverted _)
  | printD v inverted =>
    simp only [run_op, Option.some.injEq] at h
    subst h
    rw [OLED_printD_eq_foldl]
    exact OLED_write_foldl_extends font5x8 inverted _ s
  | printB v inverted =>
    simp only [run_op, Option.some.injEq] at h
    subst h
    rw [OLED_printB_eq_foldl]
    exact OLED_write_foldl_extends font5x8 inverted _ s
  | printW v inverted =>
    simp only [run_op, Option.some.injEq] at h
    subst h
    rw [OLED_printW_eq_foldl]
    exact OLED_write_foldl_extends font5x8 inverted _ s
  | printL v inverted =>
    simp only [run_op, Option.some.injEq] at h
    subst h
    rw [OLED_printL_eq_foldl]
    exact OLED_write_foldl_extends font5x8 inverted _ s

/-- C16: the bus trace of every public operation (`OLED_init`, `OLED_clear`,
`OLED_write`, `OLED_print`, `OLED_printS`, `OLED_println`, `OLED_printD`,
`OLED_printB/W/L`, `OLED_setpos`, `OLED_fill`, `OLED_scrollDisplay`, and
`OLED_DrawBitmap` when it ends), for every argument and from every state, is
a concatenation of complete transactions, each a start to 0x78, one control
byte 0x00 or 0x40, payload bytes, stop, where 0x78 is 0x3C shifted left by
one with write bit 0; it passes the protocol check: no start inside an open
transaction, no byte outside a transaction, and no transaction left open. -/
theorem bus_trace_framed (font5x8 : Int → Nat → Nat) (op : Op) (s t : OLED)
    (h : run_op font5x8 op s = some t) :
    t.bus = s.bus ++ bus_since s t ∧
    Framed (bus_since s t) ∧
    bus_check Phase.idle (bus_since s t) = some Phase.idle ∧
    OLED_ADDR = (0x3C <<< 1) ||| 0 := by
  obtain ⟨x, hx, fx⟩ := run_op_extends font5x8 op s t h
  rw [bus_since_eq s t x hx]
  exact ⟨hx, fx, Framed_bus_check x fx, by decide⟩

/-- C16 for `OLED_println` of the string AB from the state at program start. -/
theorem bus_trace_framed_witness :
    run_op (fun _ _ => 0) (Op.println [65, 66, 0] true) OLED_reset
      = some (OLED_println (fun _ _ => 0) [65, 66, 0] true OLED_reset) ∧
    bus_check Phase.idle
      (bus_since OLED_reset (OLED_println (fun _ _ => 0) [65, 66, 0] true OLED_reset))
        = some Phase.idle :=
  ⟨rfl, (bus_trace_framed (fun _ _ => 0) (Op.println [65, 66, 0] true) OLED_reset _ rfl).2.2.1⟩

/-! ## The cursor invariant -/

theorem OLED_write_inv (font5x8 : Int → Nat → Nat) (c : Nat) (inverted : Bool) (s : OLED)
    (h : s.line ≤ 7 ∧ s.scroll ≤ 7) :
    (OLED_write font5x8 c inverted s).line ≤ 7 ∧ (OLED_write font5x8 c inverted s).scroll ≤ 7 := by
  simp only [OLED_write]
  split_ifs with h1 h2 h3 h4
  · rw [OLED_plotChar_eq]; exact h
  · rw [OLED_setline_eq]
    refine ⟨?_, h.2⟩
    show (s.line + 1) % 256 ≤ 7
    omega
  · rw [OLED_setline_eq]
    refine ⟨?_, h.2⟩
    show s.line ≤ 7
    exact h.1
  · rw [OLED_setline_eq]; exact h
  · exact h

theorem OLED_write_foldl_inv (font5x8 : Int → Nat → Nat) (inverted : Bool) :
    ∀ (cs : List Nat) (s : OLED), (s.line ≤ 7 ∧ s.scroll ≤ 7) →
      (cs.foldl (fun s c => OLED_write font5x8 c inverted s) s).line ≤ 7 ∧
      (cs.foldl (fun s c => OLED_write font5x8 c inverted s) s).scroll ≤ 7 := by
  intro cs
  induction cs with
  | nil => intro s h; exact h
  | cons c cs ih =>
    intro s h
    rw [List.foldl_cons]
    exact ih _ (OLED_write_inv font5x8 c inverted s h)

theorem OLED_printS_inv (font5x8 : Int → Nat → Nat) (inverted : Bool) :
    ∀ (str : List Nat) (s : OLED), (s.line ≤ 7 ∧ s.scroll ≤ 7) →
      (OLED_printS font5x8 str inverted s).line ≤ 7 ∧
      (OLED_printS font5x8 str inverted s).scroll ≤ 7 := by
  intro str
  induction str with
  | nil => intro s h; exact h
  | cons c str ih =>
    intro s h
    simp only [OLED_printS]
    split_ifs
    · exact h
    · exact ih _ (OLED_write_inv font5x8 c inverted s h)

theorem run_op_inv (font5x8 : Int → Nat → Nat) (op : Op) (s t : OLED)
    (hs : s.line ≤ 7 ∧ s.scroll ≤ 7) (h : run_op font5x8 op s = some t) :
    t.line ≤ 7 ∧ t.scroll ≤ 7 := by
  cases op with
  | drawBitmap fuel x0 y0 w hh bmp inverted =>
    have hc := (OLED_DrawBitmap_frame fuel x0 y0 w hh bmp inverted s t h).1
    simp only [cursor, Prod.mk.injEq] at hc
    omega
  | init =>
    simp only [run_op, Option.some.injEq] at h
    subst h
    rw [OLED_init_eq]
    exact ⟨hs.1, Nat.zero_le _⟩
  | clear =>
    simp only [run_op, Option.some.injEq] at h
    subst h
    rw [OLED_clear_eq]; exact hs
  | fill p =>
    simp only [run_op, Option.some.injEq] at h
    subst h
    rw [OLED_fill_eq]; exact hs
  | setpos x y =>
    simp only [run_op, Option.some.injEq] at h
    subst h
    rw [OLED_setpos_eq]; exact hs
  | scrollDisplay =>
    simp only [run_op, Option.some.injEq] at h
    subst h
    rw [OLED_scrollDisplay_raw_eq]
    refine ⟨hs.1, ?_⟩
    show (s.scroll + 1) &&& 0x07 ≤ 7
    rw [and_seven]
    omega
  | write c inverted =>
    simp only [run_op, Option.some.injEq] at h
    subst h
    exact OLED_write_inv font5x8 c inverted s hs
  | print str =>
    simp only [run_op, Option.some.injEq] at h
    subst h
    rw [OLED_print_eq_printS]
    exact OLED_printS_inv font5x8 false str s hs
  | printS str inverted =>
    simp only [run_op, Option.some.injEq] at h
    subst h
    exact OLED_printS_inv font5x8 inverted str s hs
  | println str inverted =>
    simp only [run_op, Option.some.injEq] at h
    subst h
    exact OLED_write_inv font5x8 10 inverted _ (OLED_printS_inv font5x8 inverted str s hs)
  | printD v inverted =>
    simp only [run_op, Option.some.injEq] at h
    subst h
    rw [OLED_printD_eq_foldl]
    exact OLED_write_foldl_inv font5x8 inverted _ s hs
  | printB v inverted =>
    simp only [run_op, Option.some.injEq] at h
    subst h
    rw [OLED_printB_eq_foldl]
    exact OLED_write_foldl_inv font5x8 inverted _ s hs
  | printW v inverted =>
    simp only [run_op, Option.some.injEq] at h
    subst h
    rw [OLED_printW_eq_foldl]
    exact OLED_write_foldl_inv font5x8 inverted _ s hs
  | printL v inverted =>
    simp only [run_op, Option.some.injEq] at h
    subst h
    rw [OLED_printL_eq_foldl]
    exact OLED_write_foldl_inv font5x8 inverted _ s hs

theorem Reachable_inv (font5x8 : Int → Nat → Nat) (s : OLED) (h : Reachable font5x8 s) :
    s.line ≤ 7 ∧ s.scroll ≤ 7 := by
  induction h with
  | start => exact ⟨Nat.zero_le _, Nat.zero_le _⟩
  | step op s t _ hrun ih => exact run_op_inv font5x8 op s t ih hrun

/-- C15: the predicate `line <= 7 and scroll <= 7` holds in the state at
program start (the three globals zero) and is preserved by every public
operation for every argument (`OLED_init`, `OLED_clear`, `OLED_write`,
`OLED_print`, `OLED_printS`, `OLED_println`, `OLED_printD`, `OLED_printB/W/L`,
`OLED_setpos`, `OLED_fill`, `OLED_scrollDisplay`, and `OLED_DrawBitmap` when
it ends); hence in every reachable state the page indices
`(line + scroll) & 7` and `scroll` that a set-line command is sent with are in
0 to 7. -/
theorem cursor_invariant (font5x8 : Int → Nat → Nat) :
    (OLED_reset.line ≤ 7 ∧ OLED_reset.scroll ≤ 7) ∧
    (∀ (op : Op) (s t : OLED), s.line ≤ 7 ∧ s.scroll ≤ 7 → run_op font5x8 op s = some t →
      t.line ≤ 7 ∧ t.scroll ≤ 7) ∧
    (∀ s : OLED, Reachable font5x8 s →
      (s.line ≤ 7 ∧ s.scroll ≤ 7) ∧ (s.line + s.scroll) &&& 0x07 ≤ 7 ∧ s.scroll ≤ 7) := by
  refine ⟨⟨Nat.zero_le _, Nat.zero_le _⟩, fun op s t hs h => run_op_inv font5x8 op s t hs h, ?_⟩
  intro s hr
  have hi := Reachable_inv font5x8 s hr
  refine ⟨hi, ?_, hi.2⟩
  rw [and_seven]
  omega

/-- C15 at a newline written on the last line with scroll 7: the line stays
7; and the state after one scroll from program start is reachable. -/
theorem cursor_invariant_witness :
    ((7 : Nat) ≤ 7 ∧ (7 : Nat) ≤ 7) ∧
    (OLED_write (fun _ _ => 0) 10 false { line := 7, column := 0, scroll := 7, bus := [] }).line
      ≤ 7 ∧
    (OLED_scrollDisplay OLED_reset).scroll ≤ 7 :=
  ⟨by decide,
    ((cursor_invariant (fun _ _ => 0)).2.1 (Op.write 10 false)
      { line := 7, column := 0, scroll := 7, bus := [] } _ (by decide) rfl).1,
    ((cursor_invariant (fun _ _ => 0)).2.2 (OLED_scrollDisplay OLED_reset)
      (Reachable.step Op.scrollDisplay OLED_reset _ Reachable.start rfl)).1.2⟩

end SSD1306
